import Mathlib

/-!
# The `aws_resource_missing_tags` rule

A shallow embedding of `rules/aws_resource_missing_tags.go` and, further down, of two generated
rules of `rules/models`, and theorems about them.

Conventions of the embedding.

* A Go `string` is a Lean `String`.  Every string the rule handles comes out of the HCL
  configuration and is valid UTF-8, for which Go's byte-wise comparison and the comparison of
  the sequences of code points agree.
* A Go `map[string]V` is an association list read from the head: `mapSet` puts the new binding
  in front and `mapGet` returns the first binding of a key, so a later assignment shadows an
  earlier one.  A nil map and an empty map are both `[]`; the rule only reads them
  (lookup, `len`, `range`, source of `maps.Copy`), and those operations do not tell them apart.
  The rule uses `len(m)` only in `len(m) > 0` and `len(m) == 0`, which hold exactly when the
  list is non-empty, respectively empty.
* The host (`tflint.Runner`) is a record of the answers it gives to the queries the rule makes.
  An attribute carries the range of its expression and the outcome of the one operation the
  rule applies to that expression.
* `Check` and its loops return an `Outcome`: the issues handed to `runner.EmitIssue` so far and
  the failure, if any, that ended the run.
-/

namespace Rules

/-! ## Source locations, issues, outcomes -/

/-- Position in a source file (`hcl.Pos`). -/
structure Pos where
  Line : Nat
  Column : Nat
  Byte : Nat
  deriving DecidableEq, Repr

/-- Range of a source file (`hcl.Range`). -/
structure Range where
  Filename : String
  Start : Pos
  End : Pos
  deriving DecidableEq, Repr

deriving instance DecidableEq for Except

/-- One call of `runner.EmitIssue(rule, message, location)`. -/
structure Issue where
  message : String
  location : Range
  deriving DecidableEq, Repr

/-- How a run ends early: `error` is an error value returned to the caller, `panic` is a Go
run-time panic (a nil dereference or a panicking `cty` accessor). -/
inductive Failure where
  | error (text : String)
  | panic (text : String)
  deriving DecidableEq, Repr

/-- Issues emitted so far, and the failure that ended the run (`none`: returned `nil`). -/
structure Outcome where
  issues : List Issue
  failure : Option Failure
  deriving DecidableEq, Repr

/-- Sequencing of two parts of a run: the second part runs only when the first did not fail;
the issues of the first part stay emitted either way. -/
def Outcome.andThen (o : Outcome) (next : Unit → Outcome) : Outcome :=
  match o.failure with
  | some f => ⟨o.issues, some f⟩
  | none => ⟨o.issues ++ (next ()).issues, (next ()).failure⟩

/-! ## Go strings and maps -/

/-- Comparison of two strings as Go's `<` does it, element by element, a proper initial segment
being smaller. -/
def lessChars : List Char → List Char → Bool
  | [], [] => false
  | [], _ :: _ => true
  | _ :: _, [] => false
  | a :: as, b :: bs => if a < b then true else if b < a then false else lessChars as bs

/-- Go's `a < b` on strings. -/
def stringLess (a b : String) : Bool := lessChars a.toList b.toList

/-- Go's `sort.Strings`: the list in increasing order.  The order on strings is total and equal
strings cannot be told apart, so the result does not depend on the sorting algorithm. -/
def sortStrings (l : List String) : List String :=
  l.insertionSort (fun a b => stringLess b a = false)

/-- Go's `strings.Join(elems, sep)`. -/
def stringsJoin (elems : List String) (sep : String) : String := sep.intercalate elems

/-- A Go `map[string]string`. -/
abbrev TagMap := List (String × String)

/-- The two-valued lookup `v, ok := m[k]`. -/
def mapGet {β : Type} : List (String × β) → String → Option β
  | [], _ => none
  | (k', v) :: rest, k => if k' = k then some v else mapGet rest k

/-- The `ok` of `_, ok := m[k]`. -/
def mapHas {β : Type} (m : List (String × β)) (k : String) : Bool := (mapGet m k).isSome

/-- The assignment `m[k] = v`. -/
def mapSet {β : Type} (m : List (String × β)) (k : String) (v : β) : List (String × β) :=
  (k, v) :: m

/-- The one-valued lookup `m[k]` in a map of maps: the nil map when the key is absent. -/
def mapIndex (m : List (String × TagMap)) (k : String) : TagMap := (mapGet m k).getD []

/-- The keys of a map. -/
def mapKeys {β : Type} (m : List (String × β)) : List String := m.map Prod.fst

/-- The library function `maps.Copy(dst, src)`: every key/value pair of `src` is assigned in
`dst`, overwriting the value of a key already there. -/
def mapsCopy {β : Type} (dst src : List (String × β)) : List (String × β) :=
  src.foldr (fun kv d => mapSet d kv.1 kv.2) dst

/-! ## The rule configuration and `emitIssue` -/

/-- The rule configuration: `tags` and `exclude`. -/
structure awsResourceTagsRuleConfig where
  Tags : List String
  Exclude : List String
  deriving DecidableEq, Repr

/-- The format `"\"%s\""` applied to a tag. -/
def quoteTag (tag : String) : String := "\"" ++ tag ++ "\""

/-- The loop of `emitIssue` that collects the quoted required tags that are no key of `tags`. -/
def missingTags (tags : TagMap) : List String → List String → List String
  | [], missing => missing
  | tag :: rest, missing =>
    if mapHas tags tag then missingTags tags rest missing
    else missingTags tags rest (missing ++ [quoteTag tag])

/-- The function `emitIssue`: the issues it hands to the runner (none or one). -/
def emitIssue (tags : TagMap) (config : awsResourceTagsRuleConfig) (location : Range) :
    List Issue :=
  let missing := missingTags tags config.Tags []
  if missing.length > 0 then
    let wanted := stringsJoin (sortStrings missing) ", "
    [⟨"The resource is missing the following tags: " ++ wanted ++ ".", location⟩]
  else []

/-- The function `stringInSlice`. -/
def stringInSlice (a : String) : List String → Bool
  | [] => false
  | b :: list => if b = a then true else stringInSlice a list

/-! ## Values and expressions as the host evaluates them -/

/-- An element of a resolved `tags` mapping, as far as the rule inspects it: `v.IsNull()`,
`v.Type().FriendlyName() == "string"`, `v.AsString()`.  `unknownString` is a value of type
string that is not known, on which `AsString` panics. -/
inductive CtyElem where
  | null
  | string (s : String)
  | unknownString
  | other
  deriving DecidableEq, Repr

/-- A `cty.Value` handed to a callback that asks for a `cty.Value`: unknown, null, a known
mapping (`AsValueMap`), or a known value that is no mapping (on which `AsValueMap` panics). -/
inductive CtyValue where
  | unknown
  | null
  | map (valMap : List (String × CtyElem))
  | notMap
  deriving DecidableEq, Repr

/-- What `runner.EvaluateExpr(expr, callback, opts)` does with an expression: it returns an
error, or it returns `nil` without calling the callback (a value it cannot hand over in the
type the callback asks for: unknown, null, sensitive), or it calls the callback on the value. -/
inductive Eval (α : Type) where
  | error (text : String)
  | skipped
  | value (v : α)
  deriving DecidableEq, Repr

/-- An attribute of a body: the range of its expression (`attribute.Expr.Range()`) and the
outcome of the operation the rule applies to the expression. -/
structure Attribute (α : Type) where
  ExprRange : Range
  eval : α
  deriving DecidableEq, Repr

/-- The result `*ProviderConfigRef` of decoding a provider reference. -/
structure ProviderConfigRef where
  Name : String
  Alias : String
  deriving DecidableEq, Repr

/-- Modelled from the spec: `aws.DecodeProviderConfigRef(expr, "provider")`, which is not among
the sources; the spec describes it as `decodeProviderReference(expr) -> providerAlias, or
error`.  The record holds what a call returns: the pointer (`none` is nil) and the diagnostics
(`HasErrors()` and their text as an error). -/
structure DecodeResult where
  provider : Option ProviderConfigRef
  HasErrors : Bool
  diagnostics : String
  deriving DecidableEq, Repr

/-! ## Blocks as the host returns them -/

/-- A block nested in a provider block (schema: `default_tags` with attribute `tags`). -/
structure DefaultTagsBlock where
  tags : Option (Attribute (Eval CtyValue))
  deriving DecidableEq, Repr

/-- A provider block (schema: attribute `alias`, blocks `default_tags`); `aliasAttr` is
`provider.Body.Attributes["alias"]`. -/
structure ProviderBlock where
  aliasAttr : Option (Attribute (Eval String))
  Blocks : List DefaultTagsBlock
  deriving DecidableEq, Repr

/-- A resource block of a generic taggable type (schema: attributes `tags` and `provider`).
`Labels.1` is `Labels[0]`, the resource type, and `Labels.2` is `Labels[1]`, the name. -/
structure ResourceBlock where
  Labels : String × String
  DefRange : Range
  tags : Option (Attribute (Eval CtyValue))
  provider : Option (Attribute DecodeResult)
  deriving DecidableEq, Repr

/-- The struct `awsAutoscalingGroupTag`. -/
structure awsAutoscalingGroupTag where
  Key : String
  Value : String
  PropagateAtLaunch : Bool
  deriving DecidableEq, Repr

/-- A `tag` block nested in an `aws_autoscaling_group` (schema: attribute `key`). -/
structure TagBlock where
  key : Option (Attribute (Eval String))
  deriving DecidableEq, Repr

/-- An `aws_autoscaling_group` block.  The rule asks the runner for the blocks of this type
three times, with the empty schema, with the schema of the `tag` blocks and with the schema of
the `tags` attribute; the three answers list the same blocks of the same module, and the record
holds what they expose together. -/
structure AsgBlock where
  Labels : String × String
  DefRange : Range
  Blocks : List TagBlock
  tags : Option (Attribute (Eval (List awsAutoscalingGroupTag)))
  deriving DecidableEq, Repr

/-- The host: what it answers to `DecodeRuleConfig`, `GetProviderContent("aws", ..)`,
`GetResourceContent(resourceType, ..)` for the generic schema, and
`GetResourceContent("aws_autoscaling_group", ..)`. -/
structure Runner where
  DecodeRuleConfig : Except String awsResourceTagsRuleConfig
  GetProviderContent : Except String (List ProviderBlock)
  GetResourceContent : String → Except String (List ResourceBlock)
  GetAutoscalingGroupContent : Except String (List AsgBlock)

/-! ## `getProviderLevelTags` -/

/-- The loop that turns a resolved mapping into a Tag Map (lines 118-125 and again 215-223):
`tags[k] = ""`, then `tags[k] = v.AsString()` for a non-null value of type string. -/
def tagsOfValueMap : List (String × CtyElem) → Except Failure TagMap
  | [] => .ok []
  | (k, v) :: rest =>
    match tagsOfValueMap rest with
    | .error f => .error f
    | .ok tags =>
      match v with
      | .string s => .ok (mapSet (mapSet tags k "") k s)
      | .unknownString => .error (.panic "value is unknown")
      | .null => .ok (mapSet tags k "")
      | .other => .ok (mapSet tags k "")

/-- The value of `providerTags` after the callback of lines 111-129 ran on `val`. -/
def providerTagsOfValue : CtyValue → Except Failure TagMap
  | .unknown => .ok []
  | .null => .ok []
  | .notMap => .error (.panic "value is not a collection")
  | .map valMap => tagsOfValueMap valMap

/-- The inner loop of `getProviderLevelTags` over the blocks of one provider (lines 104-136). -/
def defaultTagsBlocks (providerAlias : String) :
    List DefaultTagsBlock → List (String × TagMap) → Except Failure (List (String × TagMap))
  | [], allProviderTags => .ok allProviderTags
  | block :: rest, allProviderTags =>
    match block.tags with
    | none => defaultTagsBlocks providerAlias rest allProviderTags
    | some attr =>
      match attr.eval with
      | .error e => .error (.error e)
      | .skipped => defaultTagsBlocks providerAlias rest (mapSet allProviderTags providerAlias [])
      | .value val =>
        match providerTagsOfValue val with
        | .error f => .error f
        | .ok providerTags =>
          defaultTagsBlocks providerAlias rest (mapSet allProviderTags providerAlias providerTags)

/-- The outer loop of `getProviderLevelTags` (lines 86-137).  The state is the table and the
variable `providerAlias`, which is declared before the loop and keeps its value from one
provider block to the next. -/
def providerBlocks :
    List ProviderBlock → List (String × TagMap) → String →
      Except Failure (List (String × TagMap))
  | [], allProviderTags, _ => .ok allProviderTags
  | provider :: rest, allProviderTags, providerAlias =>
    match provider.aliasAttr with
    | none =>
      match defaultTagsBlocks "default" provider.Blocks allProviderTags with
      | .error f => .error f
      | .ok all => providerBlocks rest all "default"
    | some providerAttr =>
      match providerAttr.eval with
      | .error e => .error (.error e)
      | .skipped =>
        match defaultTagsBlocks providerAlias provider.Blocks allProviderTags with
        | .error f => .error f
        | .ok all => providerBlocks rest all providerAlias
      | .value aliasName =>
        match defaultTagsBlocks aliasName provider.Blocks (mapSet allProviderTags aliasName []) with
        | .error f => .error f
        | .ok all => providerBlocks rest all aliasName

/-- The function `getProviderLevelTags`. -/
def getProviderLevelTags (runner : Runner) : Except Failure (List (String × TagMap)) :=
  match runner.GetProviderContent with
  | .error e => .error (.error e)
  | .ok providerBody => providerBlocks providerBody [] ""

/-! ## The map objects of `Check` -/

/-- A store of Go map objects: a reference to a map is its index in the list, the nil map is
`none`.  It serves to tell which map objects the merge of `Check` reads and writes. -/
abbrev Store := List TagMap

/-- The map a reference points to. -/
def Store.read (s : Store) : Option Nat → TagMap
  | none => []
  | some a => s.getD a []

/-- The call `make(map[string]string)`: a new empty map object and the reference to it. -/
def Store.make (s : Store) : Store × Nat := (s ++ [[]], s.length)

/-- The call `maps.Copy(dst, src)` on references: only the object `dst` is written. -/
def Store.copy (s : Store) (dst : Nat) (src : Option Nat) : Store :=
  s.set dst (mapsCopy (s.read (some dst)) (s.read src))

/-- Lines 196-200 on the store: `resourceTags` is made and the provider tags are copied into
it.  The result is the store afterwards and the reference `resourceTags`. -/
def seedInStore (s : Store) (providerTags : Option Nat) : Store × Nat :=
  let resourceTags := (Store.make s).2
  (Store.copy (Store.make s).1 resourceTags providerTags, resourceTags)

/-- Lines 196-200 and 217-224 on the store: `resourceTags` is made, the provider tags are
copied into it, `evaluatedTags` is made and filled with the entries the loop of lines 218-223
computes, and is copied into `resourceTags`.  The result is the store afterwards and the
reference `resourceTags`. -/
def mergeInStore (s : Store) (providerTags : Option Nat) (evaluated : TagMap) : Store × Nat :=
  let seeded := seedInStore s providerTags
  let evaluatedTags := (Store.make seeded.1).2
  let s2 := (Store.make seeded.1).1.set evaluatedTags evaluated
  (Store.copy s2 seeded.2 (some evaluatedTags), seeded.2)

/-- The map objects of the provider tag table when `Check` walks the resources: one object for
every entry, in the order of the entries. -/
def tableStore (providerTagsMap : List (String × TagMap)) : Store :=
  providerTagsMap.map Prod.snd

/-- The reference `providerTagsMap[k]`: the object of the first entry of the key, nil when the
key is absent.  (An entry that was assigned nil is an empty object here; the rule only reads
it, and reads do not tell the two apart.) -/
def tableRef : List (String × TagMap) → String → Option Nat
  | [], _ => none
  | (k', _) :: rest, k => if k' = k then some 0 else (tableRef rest k).map (· + 1)

/-! ## `Check`: the generic taggable resources -/

/-- The provider alias of a resource (lines 175-194): `"default"`, overridden by the alias the
`provider` attribute decodes to; the alias must be a key of the table, and the decoding must
have reported no error. -/
def providerAlias (providerTagsMap : List (String × TagMap)) (resource : ResourceBlock) :
    Except Failure String :=
  match resource.provider with
  | none => .ok "default"
  | some val =>
    match val.eval.provider with
    | none => .error (.panic "invalid memory address or nil pointer dereference")
    | some provider =>
      if mapHas providerTagsMap provider.Alias = false then
        .error (.error ("The aws provider with alias \"" ++ provider.Alias ++ "\" doesn't exist."))
      else if val.eval.HasErrors then
        .error (.error val.eval.diagnostics)
      else .ok provider.Alias

/-- The content of `resourceTags` after lines 196-200: a new map into which the provider tags of
the alias are copied. -/
def seedTags (providerTagsMap : List (String × TagMap)) (alias_ : String) : TagMap :=
  mapsCopy [] (mapIndex providerTagsMap alias_)

/-- The call `r.emitIssue(runner, tags, config, location)` of the body of the loop: the map
objects at the time of the call, the reference passed as `tags`, and the location. -/
structure EmitCall where
  store : Store
  tags : Nat
  location : Range
  deriving DecidableEq, Repr

/-- The body of the loop over the resources of one type (lines 174-236) up to its call of
`emitIssue`: a failure, no call (a `tags` value that is skipped), or the call.  The maps are
objects of the store of the table: `resourceTags` is made and seeded from the object
`providerTagsMap[providerAlias]` (lines 196-200), and with a `tags` attribute that resolves to
a mapping the converted tags are copied over it (lines 215-224). -/
def checkResourceCall (providerTagsMap : List (String × TagMap)) (resource : ResourceBlock) :
    Except Failure (Option EmitCall) :=
  match providerAlias providerTagsMap resource with
  | .error f => .error f
  | .ok alias_ =>
    let providerTags := tableRef providerTagsMap alias_
    match resource.tags with
    | some attr =>
      match attr.eval with
      | .error e => .error (.error e)
      | .skipped => .ok none
      | .value .unknown => .ok none
      | .value .null => .ok none
      | .value .notMap => .error (.panic "value is not a collection")
      | .value (.map valMap) =>
        match tagsOfValueMap valMap with
        | .error f => .error f
        | .ok evaluatedTags =>
          let merged := mergeInStore (tableStore providerTagsMap) providerTags evaluatedTags
          .ok (some ⟨merged.1, merged.2, attr.ExprRange⟩)
    | none =>
      let seeded := seedInStore (tableStore providerTagsMap) providerTags
      .ok (some ⟨seeded.1, seeded.2, resource.DefRange⟩)

/-- The body of the loop over the resources of one type (lines 174-236): what the call of
`emitIssue`, if the body comes to it, emits for the Tag Map its argument `tags` refers to.  The
loop goes on with the same table: the body leaves the map objects of the table as they
were. -/
def checkResource (config : awsResourceTagsRuleConfig)
    (providerTagsMap : List (String × TagMap)) (resource : ResourceBlock) : Outcome :=
  match checkResourceCall providerTagsMap resource with
  | .error f => ⟨[], some f⟩
  | .ok none => ⟨[], none⟩
  | .ok (some call) =>
    ⟨emitIssue (Store.read call.store (some call.tags)) config call.location, none⟩

/-- The loop over the resources of one type (line 174). -/
def checkResources (config : awsResourceTagsRuleConfig)
    (providerTagsMap : List (String × TagMap)) : List ResourceBlock → Outcome
  | [] => ⟨[], none⟩
  | resource :: rest =>
    (checkResource config providerTagsMap resource).andThen
      fun _ => checkResources config providerTagsMap rest

/-- The loop over the catalog `tags.Resources` of taggable resource types (lines 154-237).  The
catalog is not among the sources and is a parameter.  For an answer without blocks
(`resources.IsEmpty()`, line 170) the loop goes on with the next type, which is also what the
loop over no resource does. -/
def checkResourceTypes (runner : Runner) (config : awsResourceTagsRuleConfig)
    (providerTagsMap : List (String × TagMap)) : List String → Outcome
  | [] => ⟨[], none⟩
  | resourceType :: rest =>
    if stringInSlice resourceType config.Exclude then
      checkResourceTypes runner config providerTagsMap rest
    else
      match runner.GetResourceContent resourceType with
      | .error e => ⟨[], some (.error e)⟩
      | .ok resources =>
        (checkResources config providerTagsMap resources).andThen
          fun _ => checkResourceTypes runner config providerTagsMap rest

/-! ## `Check`: the autoscaling groups -/

/-- The loop of `checkAwsAutoScalingGroupsTag` over the `tag` blocks of one resource
(lines 326-339). -/
def tagBlockKeys (resource : AsgBlock) : List TagBlock → TagMap → Except Failure TagMap
  | [], tags => .ok tags
  | tag :: rest, tags =>
    match tag.key with
    | none =>
      .error (.error ("Did not find expected field \"key\" in aws_autoscaling_group \""
        ++ resource.Labels.1 ++ "\" starting at line " ++ toString resource.DefRange.Start.Line))
    | some attr =>
      match attr.eval with
      | .error e => .error (.error e)
      | .skipped => tagBlockKeys resource rest tags
      | .value key => tagBlockKeys resource rest (mapSet tags key "")

/-- The loop of `checkAwsAutoScalingGroupsTag` over the resources (lines 321-340). -/
def tagBlocksOfResources (resourceBlock : AsgBlock) :
    List AsgBlock → TagMap → Except Failure TagMap
  | [], tags => .ok tags
  | resource :: rest, tags =>
    if resource.Labels.1 ≠ resourceBlock.Labels.1 then
      tagBlocksOfResources resourceBlock rest tags
    else
      match tagBlockKeys resource resource.Blocks tags with
      | .error f => .error f
      | .ok tags => tagBlocksOfResources resourceBlock rest tags

/-- The function `checkAwsAutoScalingGroupsTag`: the Tag Map of the `tag` blocks and the range
to report at. -/
def checkAwsAutoScalingGroupsTag (runner : Runner) (resourceBlock : AsgBlock) :
    Except Failure (TagMap × Range) :=
  match runner.GetAutoscalingGroupContent with
  | .error e => .error (.error e)
  | .ok resources =>
    match tagBlocksOfResources resourceBlock resources [] with
    | .error f => .error f
    | .ok tags => .ok (tags, resourceBlock.DefRange)

/-- The callback of `checkAwsAutoScalingGroupsTags` (lines 370-375): `tags[tag.Key] = tag.Value`
for every record. -/
def asgTagsOfRecords : List awsAutoscalingGroupTag → TagMap → TagMap
  | [], tags => tags
  | tag :: rest, tags => asgTagsOfRecords rest (mapSet tags tag.Key tag.Value)

/-- The loop of `checkAwsAutoScalingGroupsTags` over the resources (lines 358-383). -/
def tagsAttributeOfResources (resourceBlock : AsgBlock) :
    List AsgBlock → Except Failure (TagMap × Range)
  | [] => .ok ([], resourceBlock.DefRange)
  | resource :: rest =>
    if resource.Labels.1 ≠ resourceBlock.Labels.1 then
      tagsAttributeOfResources resourceBlock rest
    else
      match resource.tags with
      | none => tagsAttributeOfResources resourceBlock rest
      | some attr =>
        match attr.eval with
        | .error e => .error (.error e)
        | .skipped => .ok ([], attr.ExprRange)
        | .value asgTags => .ok (asgTagsOfRecords asgTags [], attr.ExprRange)

/-- The function `checkAwsAutoScalingGroupsTags`: the Tag Map of the `tags` attribute and the
range to report at. -/
def checkAwsAutoScalingGroupsTags (runner : Runner) (resourceBlock : AsgBlock) :
    Except Failure (TagMap × Range) :=
  match runner.GetAutoscalingGroupContent with
  | .error e => .error (.error e)
  | .ok resources => tagsAttributeOfResources resourceBlock resources

/-- The `switch` of `checkAwsAutoScalingGroups` (lines 282-295). -/
def asgDecision (config : awsResourceTagsRuleConfig) (resource : AsgBlock)
    (asgTagBlockTags : TagMap) (tagBlockLocation : Range)
    (asgTagsAttributeTags : TagMap) (tagsAttributeLocation : Range) : List Issue :=
  if asgTagBlockTags.length > 0 ∧ asgTagsAttributeTags.length > 0 then
    [⟨"Only tag block or tags attribute may be present, but found both", resource.DefRange⟩]
  else if asgTagBlockTags.length = 0 ∧ asgTagsAttributeTags.length = 0 then
    emitIssue [] config resource.DefRange
  else if asgTagBlockTags.length > 0 ∧ asgTagsAttributeTags.length = 0 then
    emitIssue asgTagBlockTags config tagBlockLocation
  else if asgTagBlockTags.length = 0 ∧ asgTagsAttributeTags.length > 0 then
    emitIssue asgTagsAttributeTags config tagsAttributeLocation
  else []

/-- The body of the loop of `checkAwsAutoScalingGroups` (lines 271-296). -/
def checkAwsAutoScalingGroup (runner : Runner) (config : awsResourceTagsRuleConfig)
    (resource : AsgBlock) : Outcome :=
  match checkAwsAutoScalingGroupsTag runner resource with
  | .error f => ⟨[], some f⟩
  | .ok (asgTagBlockTags, tagBlockLocation) =>
    match checkAwsAutoScalingGroupsTags runner resource with
    | .error f => ⟨[], some f⟩
    | .ok (asgTagsAttributeTags, tagsAttributeLocation) =>
      ⟨asgDecision config resource asgTagBlockTags tagBlockLocation
        asgTagsAttributeTags tagsAttributeLocation, none⟩

/-- The loop of `checkAwsAutoScalingGroups` over the resources (line 271). -/
def checkAwsAutoScalingGroupsLoop (runner : Runner) (config : awsResourceTagsRuleConfig) :
    List AsgBlock → Outcome
  | [] => ⟨[], none⟩
  | resource :: rest =>
    (checkAwsAutoScalingGroup runner config resource).andThen
      fun _ => checkAwsAutoScalingGroupsLoop runner config rest

/-- The function `checkAwsAutoScalingGroups`. -/
def checkAwsAutoScalingGroups (runner : Runner) (config : awsResourceTagsRuleConfig) :
    Outcome :=
  if stringInSlice "aws_autoscaling_group" config.Exclude then ⟨[], none⟩
  else
    match runner.GetAutoscalingGroupContent with
    | .error e => ⟨[], some (.error e)⟩
    | .ok resources => checkAwsAutoScalingGroupsLoop runner config resources

/-! ## `Check` -/

/-- The function `Check`, over the catalog `Resources` (`tags.Resources`). -/
def Check (Resources : List String) (runner : Runner) : Outcome :=
  match runner.DecodeRuleConfig with
  | .error e => ⟨[], some (.error e)⟩
  | .ok config =>
    match getProviderLevelTags runner with
    | .error f => ⟨[], some f⟩
    | .ok providerTagsMap =>
      (checkResourceTypes runner config providerTagsMap Resources).andThen
        fun _ => checkAwsAutoScalingGroups runner config

/-! ## Notions used to state the properties -/

/-- The required tags that are no key of the Tag Map, in the order of `requiredTags`. -/
def absentTags (tags : TagMap) (requiredTags : List String) : List String :=
  requiredTags.filter (fun tag => !mapHas tags tag)

/-! ## Fixtures for the concrete runs -/

/-- A range on line `n` of `main.tf`. -/
def lineRange (n : Nat) : Range := ⟨"main.tf", ⟨n, 1, 0⟩, ⟨n, 20, 19⟩⟩

/-- A runner whose module holds the given provider blocks and the given resources of type
`aws_s3_bucket`. -/
def bucketRunner (config : awsResourceTagsRuleConfig) (providers : List ProviderBlock)
    (buckets : List ResourceBlock) : Runner where
  DecodeRuleConfig := .ok config
  GetProviderContent := .ok providers
  GetResourceContent := fun t => if t = "aws_s3_bucket" then .ok buckets else .ok []
  GetAutoscalingGroupContent := .ok []

/-- A runner whose module holds the given `aws_autoscaling_group` blocks and nothing else. -/
def asgRunner (config : awsResourceTagsRuleConfig) (groups : List AsgBlock) : Runner where
  DecodeRuleConfig := .ok config
  GetProviderContent := .ok []
  GetResourceContent := fun _ => .ok []
  GetAutoscalingGroupContent := .ok groups

/-- A bucket whose `tags` expression cannot be resolved, with no `provider` attribute. -/
def unknownTagsBucket : ResourceBlock :=
  ⟨("aws_s3_bucket", "b"), lineRange 1, some ⟨lineRange 2, .value .unknown⟩, none⟩

/-- A bucket that selects the provider `aws.missing` and has no `tags` attribute. -/
def missingProviderBucket : ResourceBlock :=
  ⟨("aws_s3_bucket", "b"), lineRange 3, none,
    some ⟨lineRange 4, ⟨some ⟨"aws", "missing"⟩, false, ""⟩⟩⟩

/-- A bucket with the tags `Owner = "infra"` and `Env = "dev"` and no `provider` attribute. -/
def taggedBucket : ResourceBlock :=
  ⟨("aws_s3_bucket", "b"), lineRange 5,
    some ⟨lineRange 6, .value (.map [("Owner", .string "infra"), ("Env", .string "dev")])⟩, none⟩

/-- The record `key = "Env", value = "prod", propagate_at_launch = true`. -/
def envRecord : awsAutoscalingGroupTag := ⟨"Env", "prod", true⟩

/-- An autoscaling group named `a` with one `tag` block of key `Env`. -/
def groupA : AsgBlock :=
  ⟨("aws_autoscaling_group", "a"), lineRange 1, [⟨some ⟨lineRange 2, .value "Env"⟩⟩], none⟩

/-- An autoscaling group named `b` that declares neither `tag` blocks nor `tags`. -/
def groupB : AsgBlock :=
  ⟨("aws_autoscaling_group", "b"), lineRange 10, [], none⟩

/-- An autoscaling group named `c` with a `tags` attribute of one record. -/
def groupC : AsgBlock :=
  ⟨("aws_autoscaling_group", "c"), lineRange 20, [], some ⟨lineRange 21, .value [envRecord]⟩⟩

/-- A runner with a rule configuration that excludes `aws_s3_bucket` and
`aws_autoscaling_group`, whose module holds the given buckets and autoscaling groups. -/
def excludingRunner (buckets : List ResourceBlock) (groups : List AsgBlock) : Runner where
  DecodeRuleConfig := .ok ⟨["Env"], ["aws_s3_bucket", "aws_autoscaling_group"]⟩
  GetProviderContent := .ok []
  GetResourceContent := fun t => if t = "aws_s3_bucket" then .ok buckets else .ok []
  GetAutoscalingGroupContent := .ok groups

/-- A provider block with the alias `prod` and the default tags `Env = "prod"`. -/
def prodProvider : ProviderBlock :=
  ⟨some ⟨lineRange 1, .value "prod"⟩,
    [⟨some ⟨lineRange 2, .value (.map [("Env", .string "prod")])⟩⟩]⟩

/-- A provider block with the alias `west` and no `default_tags` block. -/
def westProvider : ProviderBlock := ⟨some ⟨lineRange 3, .value "west"⟩, []⟩

/-- A provider block with neither an `alias` attribute nor a `default_tags` block. -/
def plainProvider : ProviderBlock := ⟨none, []⟩

/-- A provider block with no `alias` attribute and the default tags `Team = "core"`. -/
def defaultProvider : ProviderBlock :=
  ⟨none, [⟨some ⟨lineRange 4, .value (.map [("Team", .string "core")])⟩⟩]⟩

/-- An autoscaling group with the one block `tag { key = "Env" }`, which states no value. -/
def envKeyGroup : AsgBlock :=
  ⟨("aws_autoscaling_group", "web"), lineRange 1, [⟨some ⟨lineRange 2, .value "Env"⟩⟩], none⟩

/-- The string a resolved entry stands for in a Tag Map according to the spec: the string of a
non-null string value, the empty string otherwise. -/
def tagValueOf : CtyElem → String
  | .string s => s
  | _ => ""

/-- A bucket whose `tags` mapping has the entry `Name`, a string that is not known (the
reference to a variable without value inside the object `{ Name = var.name }`). -/
def unknownEntryBucket : ResourceBlock :=
  ⟨("aws_s3_bucket", "b"), lineRange 1,
    some ⟨lineRange 2, .value (.map [("Name", .unknownString)])⟩, none⟩

/-- A provider block whose default tags have the entry `Name`, a string that is not known. -/
def unknownEntryProvider : ProviderBlock :=
  ⟨none, [⟨some ⟨lineRange 1, .value (.map [("Name", .unknownString)])⟩⟩]⟩

/-- An autoscaling group named `web`, defined at line 7, with a `tag` block without `key`. -/
def keylessGroup : AsgBlock :=
  ⟨("aws_autoscaling_group", "web"), lineRange 7, [⟨none⟩], none⟩

/-- A provider block whose `alias` expression is unknown to the evaluator, with the default
tags `Team = "core"`. -/
def unknownAliasProvider : ProviderBlock :=
  ⟨some ⟨lineRange 5, .skipped⟩,
    [⟨some ⟨lineRange 6, .value (.map [("Team", .string "core")])⟩⟩]⟩

/-- A bucket without tags that selects the provider `aws.prod`. -/
def untaggedProdBucket : ResourceBlock :=
  ⟨("aws_s3_bucket", "b"), lineRange 8, none,
    some ⟨lineRange 9, ⟨some ⟨"aws", "prod"⟩, false, ""⟩⟩⟩

/-- A bucket whose `provider` expression does not decode: the decoding returns a reference
without alias together with an error diagnostic. -/
def undecodedProviderBucket : ResourceBlock :=
  ⟨("aws_s3_bucket", "b"), lineRange 3, none,
    some ⟨lineRange 4, ⟨some ⟨"aws", ""⟩, true, "Invalid provider configuration reference"⟩⟩⟩

/-- A bucket whose `provider` expression does not decode: the decoding returns the nil
reference together with an error diagnostic. -/
def nilProviderBucket : ResourceBlock :=
  ⟨("aws_s3_bucket", "b"), lineRange 3, none,
    some ⟨lineRange 4, ⟨none, true, "Invalid provider configuration reference"⟩⟩⟩

end Rules

/-!
# The generated rules of `rules/models`

The rules `aws_macie2_classification_job_invalid_job_status` and
`aws_cloud9_environment_ec2_invalid_instance_type`.  The function `truncateLongMessage` of the
package is not among the sources and is a parameter of the rules that call it.
-/

namespace Models

/-- The host as the generated rules use it.  `WalkResourceAttributes(resourceType,
attributeName, walker)` fails or calls the walker on the attributes of that name, in order;
`GetResourceContent(resourceType, schema)` with the schema of one attribute fails or returns
the blocks of the type, each with the attribute of the schema when it has one.  An attribute
carries the range of its expression and what the evaluation of the expression to a string
gives. -/
structure AttributeRunner where
  WalkResourceAttributes :
    String → String → Except String (List (Rules.Attribute (Rules.Eval String)))
  GetResourceContent :
    String → String → Except String (List (Option (Rules.Attribute (Rules.Eval String))))

/-- A loop that calls `body` on every element in order and stops at the first failure. -/
def forEach {α : Type} (body : α → Rules.Outcome) : List α → Rules.Outcome
  | [] => ⟨[], none⟩
  | x :: rest => (body x).andThen fun _ => forEach body rest

/-! ## `aws_macie2_classification_job_invalid_job_status` -/

/-- The rule struct. -/
structure AwsMacie2ClassificationJobInvalidJobStatusRule where
  resourceType : String
  attributeName : String
  enum : List String
  deriving DecidableEq, Repr

/-- The loop of lines 64-69: `found` is set when an item of `enum` equals `val`. -/
def AwsMacie2ClassificationJobInvalidJobStatusRule.found
    (r : AwsMacie2ClassificationJobInvalidJobStatusRule) (val : String) : Bool :=
  r.enum.foldl (fun found item => if item = val then true else found) false

/-- The function passed to `EnsureNoError` (lines 63-79), for the value `val` of the
expression: the issues it emits. -/
def AwsMacie2ClassificationJobInvalidJobStatusRule.proc
    (r : AwsMacie2ClassificationJobInvalidJobStatusRule)
    (truncateLongMessage : String → String)
    (attr : Rules.Attribute (Rules.Eval String)) (val : String) : List Rules.Issue :=
  if r.found val = false then
    [⟨"\"" ++ truncateLongMessage val ++ "\" is an invalid value as job_status",
      attr.ExprRange⟩]
  else []

/-- The walker of lines 59-80: the expression is evaluated to a string; `EnsureNoError` returns
an error of the evaluation, returns `nil` without running `proc` when the value cannot be
handed over (unknown, null), and runs `proc` otherwise. -/
def AwsMacie2ClassificationJobInvalidJobStatusRule.walker
    (r : AwsMacie2ClassificationJobInvalidJobStatusRule)
    (truncateLongMessage : String → String)
    (attr : Rules.Attribute (Rules.Eval String)) : Rules.Outcome :=
  match attr.eval with
  | .error e => ⟨[], some (.error e)⟩
  | .skipped => ⟨[], none⟩
  | .value val => ⟨r.proc truncateLongMessage attr val, none⟩

/-- The method `Check` of the rule. -/
def AwsMacie2ClassificationJobInvalidJobStatusRule.Check
    (r : AwsMacie2ClassificationJobInvalidJobStatusRule)
    (truncateLongMessage : String → String) (runner : AttributeRunner) : Rules.Outcome :=
  match runner.WalkResourceAttributes r.resourceType r.attributeName with
  | .error e => ⟨[], some (.error e)⟩
  | .ok attributes => forEach (r.walker truncateLongMessage) attributes

/-! ## `aws_cloud9_environment_ec2_invalid_instance_type` -/

/-- A character class `[..]` of a pattern: the ranges it lists, a single character `c` being
the range from `c` to `c`. -/
abbrev CharClass := List (Char × Char)

/-- Membership of a character in a class. -/
def CharClass.has (cls : CharClass) (c : Char) : Bool :=
  cls.any (fun range => decide (range.1 ≤ c) && decide (c ≤ range.2))

/-- A piece of a pattern: a class, or a class followed by `+`. -/
inductive Piece where
  | one (cls : CharClass)
  | plus (cls : CharClass)
  deriving DecidableEq, Repr

/-- A compiled pattern of the form `^p1 p2 .. pn$`, given by its pieces; `^` and `$` (without
the flag `m`) tie the match to the beginning and the end of the text. -/
structure Regexp where
  pieces : List Piece
  deriving DecidableEq, Repr

/-- Matching of a text against the pieces of a pattern, from the beginning of the text to its
end: a class takes one character of the class, a class with `+` takes one or more. -/
def matchPieces : List Piece → List Char → Bool
  | [], [] => true
  | [], _ :: _ => false
  | _ :: _, [] => false
  | .one cls :: rest, c :: s => cls.has c && matchPieces rest s
  | .plus cls :: rest, c :: s =>
    cls.has c && (matchPieces rest s || matchPieces (.plus cls :: rest) s)

/-- The method `MatchString` of a compiled pattern. -/
def Regexp.MatchString (re : Regexp) (s : String) : Bool := matchPieces re.pieces s.toList

/-- The rule struct. -/
structure AwsCloud9EnvironmentEc2InvalidInstanceTypeRule where
  resourceType : String
  attributeName : String
  max : Nat
  min : Nat
  pattern : Regexp
  deriving DecidableEq, Repr

/-- The callback of lines 75-98, for the value `val` of the expression: the issues it emits,
in the order of the three tests.  `len(val)` is the number of bytes of the string. -/
def AwsCloud9EnvironmentEc2InvalidInstanceTypeRule.callback
    (r : AwsCloud9EnvironmentEc2InvalidInstanceTypeRule)
    (truncateLongMessage : String → String)
    (attr : Rules.Attribute (Rules.Eval String)) (val : String) : List Rules.Issue :=
  (if val.utf8ByteSize > r.max then
    [⟨"instance_type must be 20 characters or less", attr.ExprRange⟩] else []) ++
  (if val.utf8ByteSize < r.min then
    [⟨"instance_type must be 5 characters or higher", attr.ExprRange⟩] else []) ++
  (if r.pattern.MatchString val = false then
    [⟨"\"" ++ truncateLongMessage val ++ "\" does not match valid pattern "
      ++ "^[a-z][1-9][.][a-z0-9]+$", attr.ExprRange⟩] else [])

/-- The body of the loop of lines 69-102 for one block. -/
def AwsCloud9EnvironmentEc2InvalidInstanceTypeRule.checkBlock
    (r : AwsCloud9EnvironmentEc2InvalidInstanceTypeRule)
    (truncateLongMessage : String → String)
    (resource : Option (Rules.Attribute (Rules.Eval String))) : Rules.Outcome :=
  match resource with
  | none => ⟨[], none⟩
  | some attr =>
    match attr.eval with
    | .error e => ⟨[], some (.error e)⟩
    | .skipped => ⟨[], none⟩
    | .value val => ⟨r.callback truncateLongMessage attr val, none⟩

/-- The method `Check` of the rule. -/
def AwsCloud9EnvironmentEc2InvalidInstanceTypeRule.Check
    (r : AwsCloud9EnvironmentEc2InvalidInstanceTypeRule)
    (truncateLongMessage : String → String) (runner : AttributeRunner) : Rules.Outcome :=
  match runner.GetResourceContent r.resourceType r.attributeName with
  | .error e => ⟨[], some (.error e)⟩
  | .ok resources => forEach (r.checkBlock truncateLongMessage) resources

end Models

namespace Rules

/-! ## Lemmas on strings, sorting and maps -/

theorem lessChars_iff (a b : List Char) : lessChars a b = true ↔ a < b := by
  induction a generalizing b with
  | nil =>
    cases b with
    | nil => simp [lessChars]
    | cons y ys => simpa [lessChars] using List.nil_lt_cons y ys
  | cons x xs ih =>
    cases b with
    | nil => simp [lessChars]
    | cons y ys =>
      simp only [lessChars]
      split_ifs with h1 h2
      · simpa using List.Lex.rel h1
      · simp only [Bool.false_eq_true, false_iff]
        intro h
        cases h with
        | cons h => exact lt_irrefl _ h2
        | rel h => exact lt_asymm h h2
      · have hxy : x = y := le_antisymm (not_lt.mp h2) (not_lt.mp h1)
        subst hxy
        rw [ih]
        exact List.Lex.cons_iff.symm

theorem stringLess_iff (a b : String) : stringLess a b = true ↔ a < b := by
  rw [stringLess, lessChars_iff, String.lt_iff_toList_lt]

theorem stringLess_eq_false_iff (a b : String) : stringLess b a = false ↔ a ≤ b := by
  rw [← not_lt, ← stringLess_iff]; simp

theorem sortStrings_eq (l : List String) : sortStrings l = l.insertionSort (· ≤ ·) := by
  unfold sortStrings
  congr! 2 with a
  funext b
  exact propext (stringLess_eq_false_iff a b)

theorem sortStrings_sorted (l : List String) : (sortStrings l).Sorted (· ≤ ·) := by
  rw [sortStrings_eq]; exact List.sorted_insertionSort _ l

theorem sortStrings_perm (l : List String) : (sortStrings l).Perm l := by
  rw [sortStrings_eq]; exact List.perm_insertionSort _ l

theorem mapGet_isSome_iff {β : Type} (m : List (String × β)) (k : String) :
    (mapGet m k).isSome = true ↔ k ∈ mapKeys m := by
  induction m with
  | nil => simp [mapGet, mapKeys]
  | cons kv rest ih =>
    obtain ⟨k', v⟩ := kv
    by_cases h : k' = k
    · simp [mapGet, mapKeys, h]
    · have h' : ¬ k = k' := fun e => h e.symm
      simpa [mapGet, mapKeys, h, h'] using ih

theorem mapHas_iff {β : Type} (m : List (String × β)) (k : String) :
    mapHas m k = true ↔ k ∈ mapKeys m := mapGet_isSome_iff m k

theorem mapHas_eq_false_iff {β : Type} (m : List (String × β)) (k : String) :
    mapHas m k = false ↔ k ∉ mapKeys m := by
  rw [← mapHas_iff]; simp

theorem stringInSlice_iff (a : String) (list : List String) :
    stringInSlice a list = true ↔ a ∈ list := by
  induction list with
  | nil => simp [stringInSlice]
  | cons b rest ih =>
    by_cases h : b = a
    · simp [stringInSlice, h]
    · have h' : ¬ a = b := fun e => h e.symm
      simpa [stringInSlice, h, h'] using ih

/-! ## Lemmas on `emitIssue` -/

theorem missingTags_eq (tags : TagMap) (required missing : List String) :
    missingTags tags required missing = missing ++ (absentTags tags required).map quoteTag := by
  induction required generalizing missing with
  | nil => simp [missingTags, absentTags]
  | cons tag rest ih =>
    by_cases h : mapHas tags tag = true
    · simp [missingTags, absentTags, h, ih]
    · simp [missingTags, absentTags, h, ih]

theorem mem_absentTags (tags : TagMap) (requiredTags : List String) (tag : String) :
    tag ∈ absentTags tags requiredTags ↔ tag ∈ requiredTags ∧ tag ∉ mapKeys tags := by
  simp [absentTags, mapHas_eq_false_iff]

theorem absentTags_eq_nil_iff (tags : TagMap) (requiredTags : List String) :
    absentTags tags requiredTags = [] ↔ ∀ tag ∈ requiredTags, tag ∈ mapKeys tags := by
  rw [List.eq_nil_iff_forall_not_mem]
  simp only [mem_absentTags, not_and, not_not]

theorem emitIssue_eq (tags : TagMap) (config : awsResourceTagsRuleConfig) (location : Range) :
    emitIssue tags config location =
      if absentTags tags config.Tags = [] then []
      else [⟨"The resource is missing the following tags: "
        ++ ", ".intercalate (sortStrings ((absentTags tags config.Tags).map quoteTag)) ++ ".",
        location⟩] := by
  unfold emitIssue
  simp only [missingTags_eq, List.nil_append, stringsJoin]
  by_cases h : absentTags tags config.Tags = []
  · simp [h]
  · have : 0 < ((absentTags tags config.Tags).map quoteTag).length := by
      simpa using List.length_pos.mpr h
    simp [h]

theorem emitIssue_eq_nil_iff (tags : TagMap) (config : awsResourceTagsRuleConfig)
    (location : Range) :
    emitIssue tags config location = [] ↔ ∀ tag ∈ config.Tags, tag ∈ mapKeys tags := by
  rw [emitIssue_eq, ← absentTags_eq_nil_iff]
  by_cases h : absentTags tags config.Tags = [] <;> simp [h]

theorem quoteTag_toList (tag : String) :
    (quoteTag tag).toList = Char.ofNat 34 :: (tag.toList ++ [Char.ofNat 34]) := by
  simp [quoteTag, String.toList]

/-- Appending the closing quote keeps the order of two lists of characters when no character
of the larger one is below the quote. -/
theorem lex_append_quote (q : Char) (a b : List Char) (h : List.Lex (· < ·) a b)
    (hb : ∀ c ∈ b, q ≤ c) : List.Lex (· < ·) (a ++ [q]) (b ++ [q]) := by
  induction h with
  | @nil y ys =>
    have hy : q ≤ y := hb y (by simp)
    rcases lt_or_eq_of_le hy with hlt | heq
    · exact List.Lex.rel hlt
    · subst heq
      cases ys with
      | nil => exact List.Lex.cons List.Lex.nil
      | cons z zs => exact List.Lex.cons List.Lex.nil
  | @cons x as bs _ ih =>
    exact List.Lex.cons (ih (fun c hc => hb c (List.mem_cons_of_mem _ hc)))
  | @rel x as y bs hxy => exact List.Lex.rel hxy

theorem le_of_quoteTag_le (a b : String) (ha : ∀ c ∈ a.toList, Char.ofNat 34 ≤ c)
    (h : quoteTag a ≤ quoteTag b) : a ≤ b := by
  by_contra hab
  have hlt : b < a := not_le.mp hab
  rw [String.lt_iff_toList_lt] at hlt
  have h2 : quoteTag b < quoteTag a := by
    rw [String.lt_iff_toList_lt, quoteTag_toList, quoteTag_toList]
    exact List.Lex.cons (lex_append_quote _ _ _ hlt ha)
  exact absurd h (not_le.mpr h2)

theorem sortStrings_map_quoteTag (l : List String) :
    sortStrings (l.map quoteTag)
      = (l.insertionSort (fun a b => quoteTag a ≤ quoteTag b)).map quoteTag := by
  rw [sortStrings_eq]
  exact (List.map_insertionSort (fun a b => quoteTag a ≤ quoteTag b) (· ≤ ·) quoteTag l
    (fun a _ b _ => Iff.rfl)).symm

theorem absentTags_eq_filter (tags : TagMap) (requiredTags : List String) :
    absentTags tags requiredTags = requiredTags.filter (fun tag => tag ∉ mapKeys tags) := by
  unfold absentTags
  congr 1
  funext tag
  by_cases h : tag ∈ mapKeys tags
  · simp [h, (mapHas_iff tags tag).mpr h]
  · simp [h, (mapHas_eq_false_iff tags tag).mpr h]

/-- What `emitIssue` emits when some required tag is absent: one issue that lists the absent
tags, quoted, in the increasing order of the quoted strings. -/
theorem emitIssue_of_absent (tags : TagMap) (config : awsResourceTagsRuleConfig)
    (location : Range) (h : absentTags tags config.Tags ≠ []) :
    ∃ keys : List String,
      keys.Perm (config.Tags.filter (fun tag => tag ∉ mapKeys tags)) ∧
      sortStrings (missingTags tags config.Tags []) = keys.map quoteTag ∧
      emitIssue tags config location =
        [⟨"The resource is missing the following tags: "
          ++ ", ".intercalate (keys.map quoteTag) ++ ".", location⟩] ∧
      (keys.map quoteTag).Sorted (· ≤ ·) := by
  refine ⟨(absentTags tags config.Tags).insertionSort (fun a b => quoteTag a ≤ quoteTag b),
    ?_, ?_, ?_, ?_⟩
  · rw [← absentTags_eq_filter]
    exact List.perm_insertionSort _ _
  · rw [missingTags_eq, List.nil_append, sortStrings_map_quoteTag]
  · rw [emitIssue_eq, if_neg h, sortStrings_map_quoteTag]
  · rw [← sortStrings_map_quoteTag]
    exact sortStrings_sorted _

/-- C2 (as amended): when a required tag is absent, the keys listed in the message of
`emitIssue` are the absent required tags in the increasing order of their quoted forms
(`"key"`, quotes included), which is what `sort.Strings` is applied to; this is the increasing
order of the keys themselves whenever no listed key contains a character below the double
quote (U+0022). -/
theorem C2_missing_keys_sorted_by_quoted_form (tags : TagMap)
    (config : awsResourceTagsRuleConfig) (location : Range)
    (h : ∃ tag ∈ config.Tags, tag ∉ mapKeys tags) :
    ∃ keys : List String,
      keys.Perm (config.Tags.filter (fun tag => tag ∉ mapKeys tags)) ∧
      sortStrings (missingTags tags config.Tags []) = keys.map (fun key => "\"" ++ key ++ "\"") ∧
      emitIssue tags config location =
        [⟨"The resource is missing the following tags: "
          ++ ", ".intercalate (keys.map (fun key => "\"" ++ key ++ "\"")) ++ ".", location⟩] ∧
      (keys.map (fun key => "\"" ++ key ++ "\"")).Sorted (· ≤ ·) ∧
      ((∀ key ∈ keys, ∀ c ∈ key.toList, Char.ofNat 34 ≤ c) → keys.Sorted (· ≤ ·)) := by
  have hne : absentTags tags config.Tags ≠ [] := by
    obtain ⟨tag, h1, h2⟩ := h
    exact List.ne_nil_of_mem ((mem_absentTags tags config.Tags tag).mpr ⟨h1, h2⟩)
  obtain ⟨keys, hperm, hsorted, hemit, hq⟩ := emitIssue_of_absent tags config location hne
  refine ⟨keys, hperm, hsorted, hemit, hq, fun hchars => ?_⟩
  have hq' : keys.Pairwise (fun a b => quoteTag a ≤ quoteTag b) := List.pairwise_map.mp hq
  exact hq'.imp_of_mem (fun {a b} ha _ hab => le_of_quoteTag_le a b (hchars a ha) hab)

/-- Witness of C2 (as amended): the example of the claim, required tags `Owner`, `Env`, `Team`
against the Tag Map with the one key `Env`; the message lists `"Owner", "Team"`. -/
theorem C2_missing_keys_sorted_by_quoted_form_witness :
    (∃ tag ∈ ["Owner", "Env", "Team"], tag ∉ mapKeys [("Env", "prod")]) ∧
    (∃ keys : List String,
      keys.Perm (["Owner", "Env", "Team"].filter (fun tag => tag ∉ mapKeys [("Env", "prod")])) ∧
      sortStrings (missingTags [("Env", "prod")] ["Owner", "Env", "Team"] [])
        = keys.map (fun key => "\"" ++ key ++ "\"") ∧
      emitIssue [("Env", "prod")] ⟨["Owner", "Env", "Team"], []⟩ (lineRange 1) =
        [⟨"The resource is missing the following tags: "
          ++ ", ".intercalate (keys.map (fun key => "\"" ++ key ++ "\"")) ++ ".", lineRange 1⟩] ∧
      (keys.map (fun key => "\"" ++ key ++ "\"")).Sorted (· ≤ ·) ∧
      ((∀ key ∈ keys, ∀ c ∈ key.toList, Char.ofNat 34 ≤ c) → keys.Sorted (· ≤ ·))) ∧
    emitIssue [("Env", "prod")] ⟨["Owner", "Env", "Team"], []⟩ (lineRange 1) =
      [⟨"The resource is missing the following tags: \"Owner\", \"Team\".", lineRange 1⟩] :=
  ⟨⟨"Owner", by decide, by decide⟩,
   C2_missing_keys_sorted_by_quoted_form [("Env", "prod")] ⟨["Owner", "Env", "Team"], []⟩
     (lineRange 1) ⟨"Owner", by decide, by decide⟩,
   by decide⟩

/-- Counterexample to C2 as stated: for the required tags `Cost` and `Cost Center` and an
empty Tag Map the message lists `"Cost Center"` before `"Cost"`, while `Cost` is the smaller
key: the keys are not in increasing order. -/
theorem C2_counterexample :
    emitIssue [] ⟨["Cost", "Cost Center"], []⟩ (lineRange 1) =
      [⟨"The resource is missing the following tags: \"Cost Center\", \"Cost\".", lineRange 1⟩] ∧
    "Cost" < "Cost Center" ∧
    ¬ List.Sorted (· ≤ ·) ["Cost Center", "Cost"] := by
  have hlt : "Cost" < "Cost Center" := (stringLess_iff _ _).mp (by decide)
  refine ⟨by decide, hlt, fun hs => ?_⟩
  have hle : "Cost Center" ≤ "Cost" := List.rel_of_sorted_cons hs "Cost" (by simp)
  exact absurd hlt (not_lt.mpr hle)

/-- C3: `emitIssue` emits nothing exactly when every required tag is a key of the Tag Map,
whatever the value of the key (the empty string included); otherwise it emits one issue, at the
range it was given, whose message is the fixed text, the absent required tags, each between
double quotes and joined by a comma and a blank, and a final dot.  The listed keys are a
rearrangement of the entries of `requiredTags` that are no key of the Tag Map, one per
occurrence. -/
theorem C3_emitIssue_lists_absent_required_tags (tags : TagMap)
    (config : awsResourceTagsRuleConfig) (location : Range) :
    (emitIssue tags config location = [] ↔ ∀ tag ∈ config.Tags, tag ∈ mapKeys tags) ∧
    (emitIssue tags config location = [] ∨
      ∃ keys : List String,
        keys.Perm (config.Tags.filter (fun tag => tag ∉ mapKeys tags)) ∧
        emitIssue tags config location =
          [⟨"The resource is missing the following tags: "
            ++ ", ".intercalate (keys.map (fun key => "\"" ++ key ++ "\"")) ++ ".",
            location⟩]) ∧
    (∀ key : String, emitIssue (mapSet tags key "") ⟨[key], config.Exclude⟩ location = []) := by
  refine ⟨emitIssue_eq_nil_iff tags config location, ?_, ?_⟩
  · by_cases h : absentTags tags config.Tags = []
    · left
      rw [emitIssue_eq, if_pos h]
    · right
      obtain ⟨keys, hperm, _, hemit, _⟩ := emitIssue_of_absent tags config location h
      exact ⟨keys, hperm, hemit⟩
  · intro key
    rw [emitIssue_eq_nil_iff]
    intro tag htag
    simp only [List.mem_singleton] at htag
    subst htag
    simp [mapKeys, mapSet]

/-! ## Lemmas on outcomes and on the loops of `Check` -/

theorem andThen_none (issues : List Issue) (next : Unit → Outcome) :
    Outcome.andThen ⟨issues, none⟩ next = ⟨issues ++ (next ()).issues, (next ()).failure⟩ := rfl

theorem andThen_some (issues : List Issue) (f : Failure) (next : Unit → Outcome) :
    Outcome.andThen ⟨issues, some f⟩ next = ⟨issues, some f⟩ := rfl

theorem andThen_nil (next : Unit → Outcome) : Outcome.andThen ⟨[], none⟩ next = next () := rfl

theorem andThen_failure_ne_none (o : Outcome) (next : Unit → Outcome)
    (h : o.failure ≠ none) : (o.andThen next).failure ≠ none := by
  obtain ⟨issues, failure⟩ := o
  cases failure with
  | none => exact absurd rfl h
  | some f => simp [Outcome.andThen]

theorem andThen_failure_of_none (o : Outcome) (next : Unit → Outcome)
    (h : o.failure = none) : (o.andThen next).failure = (next ()).failure := by
  obtain ⟨issues, failure⟩ := o
  cases failure with
  | none => rfl
  | some f => simp at h

theorem andThen_assoc (o : Outcome) (k1 k2 : Unit → Outcome) :
    (o.andThen k1).andThen k2 = o.andThen (fun _ => (k1 ()).andThen k2) := by
  obtain ⟨issues, failure⟩ := o
  cases failure with
  | some f => rfl
  | none =>
    rcases h : k1 () with ⟨issues1, failure1⟩
    cases failure1 with
    | some f => simp [Outcome.andThen, h]
    | none => simp [Outcome.andThen, h]

theorem checkResources_append (config : awsResourceTagsRuleConfig)
    (table : List (String × TagMap)) (pre post : List ResourceBlock) :
    checkResources config table (pre ++ post)
      = (checkResources config table pre).andThen fun _ => checkResources config table post := by
  induction pre with
  | nil => rfl
  | cons resource rest ih =>
    show (checkResource config table resource).andThen
        (fun _ => checkResources config table (rest ++ post)) = _
    rw [ih, checkResources, andThen_assoc]

theorem checkResourceTypes_append (runner : Runner) (config : awsResourceTagsRuleConfig)
    (table : List (String × TagMap)) (before after : List String) :
    checkResourceTypes runner config table (before ++ after)
      = (checkResourceTypes runner config table before).andThen
          fun _ => checkResourceTypes runner config table after := by
  induction before with
  | nil => rfl
  | cons resourceType rest ih =>
    simp only [List.cons_append, checkResourceTypes]
    split_ifs with hex
    · exact ih
    · cases runner.GetResourceContent resourceType with
      | error e => rfl
      | ok resources =>
        show (checkResources config table resources).andThen
            (fun _ => checkResourceTypes runner config table (rest ++ after)) = _
        rw [ih, andThen_assoc]

theorem checkResources_failure_of_mem (config : awsResourceTagsRuleConfig)
    (table : List (String × TagMap)) (resources : List ResourceBlock) (resource : ResourceBlock)
    (hmem : resource ∈ resources)
    (hfail : (checkResource config table resource).failure ≠ none) :
    (checkResources config table resources).failure ≠ none := by
  induction resources with
  | nil => simp at hmem
  | cons first rest ih =>
    simp only [checkResources]
    by_cases hfirst : (checkResource config table first).failure = none
    · rw [andThen_failure_of_none _ _ hfirst]
      rcases List.mem_cons.mp hmem with h | h
      · subst h; exact absurd hfirst hfail
      · exact ih h
    · exact andThen_failure_ne_none _ _ hfirst

theorem checkResourceTypes_failure_of_mem (runner : Runner)
    (config : awsResourceTagsRuleConfig) (table : List (String × TagMap))
    (Resources : List String) (resourceType : String) (resources : List ResourceBlock)
    (hmem : resourceType ∈ Resources) (hex : resourceType ∉ config.Exclude)
    (hcontent : runner.GetResourceContent resourceType = .ok resources)
    (hfail : (checkResources config table resources).failure ≠ none) :
    (checkResourceTypes runner config table Resources).failure ≠ none := by
  induction Resources with
  | nil => simp at hmem
  | cons first rest ih =>
    simp only [checkResourceTypes]
    split_ifs with hfirstEx
    · rcases List.mem_cons.mp hmem with h | h
      · subst h
        exact absurd ((stringInSlice_iff _ _).mp hfirstEx) hex
      · exact ih h
    · cases hc : runner.GetResourceContent first with
      | error e => simp
      | ok firstResources =>
        simp only []
        by_cases hfirst : (checkResources config table firstResources).failure = none
        · rw [andThen_failure_of_none _ _ hfirst]
          rcases List.mem_cons.mp hmem with h | h
          · subst h
            rw [hcontent] at hc
            cases hc
            exact absurd hfirst hfail
          · exact ih h
        · exact andThen_failure_ne_none _ _ hfirst

/-! ## Lemmas on the conversion and on the store of map objects -/

theorem tagsOfValueMap_keys (valMap : List (String × CtyElem)) (tags : TagMap)
    (h : tagsOfValueMap valMap = .ok tags) (k : String) :
    k ∈ mapKeys tags ↔ k ∈ mapKeys valMap := by
  induction valMap generalizing tags with
  | nil =>
    simp only [tagsOfValueMap, Except.ok.injEq] at h
    subst h
    simp [mapKeys]
  | cons kv rest ih =>
    obtain ⟨k', v⟩ := kv
    simp only [tagsOfValueMap] at h
    cases hrest : tagsOfValueMap rest with
    | error f => simp [hrest] at h
    | ok restTags =>
      have ih' := ih restTags hrest
      simp only [mapKeys] at ih'
      rw [hrest] at h
      cases v <;> simp only [Except.ok.injEq, reduceCtorEq] at h <;> subst h <;>
        simp [mapKeys, mapSet, ih']

theorem tagsOfValueMap_ok_iff (valMap : List (String × CtyElem)) :
    (∃ tags, tagsOfValueMap valMap = .ok tags) ↔ ∀ kv ∈ valMap, kv.2 ≠ .unknownString := by
  induction valMap with
  | nil => simp [tagsOfValueMap]
  | cons kv rest ih =>
    obtain ⟨k, v⟩ := kv
    simp only [tagsOfValueMap, List.forall_mem_cons]
    cases hrest : tagsOfValueMap rest with
    | error f =>
      have hno : ¬ ∀ kv ∈ rest, kv.2 ≠ .unknownString := fun h => by
        obtain ⟨t, ht⟩ := ih.mpr h
        rw [hrest] at ht
        cases ht
      constructor
      · rintro ⟨t, ht⟩
        cases ht
      · rintro ⟨_, h⟩
        exact absurd h hno
    | ok tags =>
      have hall : ∀ kv ∈ rest, kv.2 ≠ .unknownString := ih.mp ⟨tags, hrest⟩
      cases v with
      | null => exact ⟨fun _ => ⟨by simp, hall⟩, fun _ => ⟨_, rfl⟩⟩
      | string s => exact ⟨fun _ => ⟨by simp, hall⟩, fun _ => ⟨_, rfl⟩⟩
      | other => exact ⟨fun _ => ⟨by simp, hall⟩, fun _ => ⟨_, rfl⟩⟩
      | unknownString =>
        constructor
        · rintro ⟨t, ht⟩
          cases ht
        · rintro ⟨h, _⟩
          exact absurd rfl h

theorem tagsOfValueMap_get (valMap : List (String × CtyElem)) (tags : TagMap)
    (h : tagsOfValueMap valMap = .ok tags) (k : String) :
    mapGet tags k = (mapGet valMap k).map tagValueOf := by
  induction valMap generalizing tags with
  | nil =>
    simp only [tagsOfValueMap, Except.ok.injEq] at h
    subst h
    rfl
  | cons kv rest ih =>
    obtain ⟨k', v⟩ := kv
    simp only [tagsOfValueMap] at h
    cases hrest : tagsOfValueMap rest with
    | error f => simp [hrest] at h
    | ok restTags =>
      have ih' := ih restTags hrest
      rw [hrest] at h
      by_cases hk : k' = k
      · cases v <;> simp only [Except.ok.injEq, reduceCtorEq] at h <;> subst h <;>
          simp [mapGet, mapSet, hk, tagValueOf]
      · cases v <;> simp only [Except.ok.injEq, reduceCtorEq] at h <;> subst h <;>
          simp [mapGet, mapSet, hk, ih']

theorem getD_append_length {α : Type} (s : List α) (x : α) (rest : List α) (d : α) :
    (s ++ x :: rest).getD s.length d = x := by
  induction s with
  | nil => rfl
  | cons y ys ih => simpa using ih

theorem set_append_length {α : Type} (s : List α) (x y : α) (rest : List α) :
    (s ++ x :: rest).set s.length y = s ++ y :: rest := by
  induction s with
  | nil => rfl
  | cons z zs ih => simp

theorem getD_append_of_lt {α : Type} (s rest : List α) (a : Nat) (d : α) (h : a < s.length) :
    (s ++ rest).getD a d = s.getD a d := by
  simp [List.getD_eq_getElem?_getD, List.getElem?_append_left h]

theorem seedInStore_eq (s : Store) (providerTags : Option Nat)
    (hvalid : ∀ a, providerTags = some a → a < s.length) :
    seedInStore s providerTags = (s ++ [mapsCopy [] (Store.read s providerTags)], s.length) := by
  have hread : Store.read (s ++ [[]]) providerTags = Store.read s providerTags := by
    cases providerTags with
    | none => rfl
    | some a => exact getD_append_of_lt s [[]] a [] (hvalid a rfl)
  simp only [seedInStore, Store.make, Store.copy, hread]
  rw [set_append_length]
  simp only [Store.read]
  rw [getD_append_length]

theorem mergeInStore_eq (s : Store) (providerTags : Option Nat) (evaluated : TagMap)
    (hvalid : ∀ a, providerTags = some a → a < s.length) :
    mergeInStore s providerTags evaluated
      = (s ++ [mapsCopy (mapsCopy [] (Store.read s providerTags)) evaluated, evaluated],
          s.length) := by
  simp only [mergeInStore, seedInStore_eq s providerTags hvalid]
  generalize mapsCopy [] (Store.read s providerTags) = m1
  simp only [Store.make, Store.copy, Store.read]
  rw [set_append_length (s ++ [m1]) [] evaluated []]
  rw [getD_append_length (s ++ [m1]) evaluated [] []]
  rw [List.append_assoc]
  simp only [List.singleton_append]
  rw [getD_append_length, set_append_length]

theorem tableRef_lt (table : List (String × TagMap)) (k : String) (a : Nat)
    (h : tableRef table k = some a) : a < (tableStore table).length := by
  induction table generalizing a with
  | nil => simp [tableRef] at h
  | cons kv rest ih =>
    obtain ⟨k', v⟩ := kv
    by_cases hk : k' = k
    · simp only [tableRef, hk, if_true, Option.some.injEq] at h
      subst h
      simp [tableStore]
    · simp only [tableRef, hk, if_false, Option.map_eq_some'] at h
      obtain ⟨b, hb, hab⟩ := h
      have := ih b hb
      simp only [tableStore, List.length_map, List.length_cons] at this ⊢
      omega

theorem read_tableStore (table : List (String × TagMap)) (k : String) :
    Store.read (tableStore table) (tableRef table k) = mapIndex table k := by
  induction table with
  | nil => rfl
  | cons kv rest ih =>
    obtain ⟨k', v⟩ := kv
    by_cases hk : k' = k
    · simp [tableRef, tableStore, mapIndex, mapGet, hk, Store.read]
    · simp only [tableRef, hk, if_false, mapIndex, mapGet]
      cases hrest : tableRef rest k with
      | none =>
        rw [hrest] at ih
        simpa [Store.read, mapIndex] using ih
      | some a =>
        rw [hrest] at ih
        simpa [Store.read, tableStore, mapIndex] using ih

/-- The content of `resourceTags` at the call of `emitIssue` for a resource without `tags`
attribute. -/
theorem read_seedInStore (table : List (String × TagMap)) (alias_ : String) :
    Store.read (seedInStore (tableStore table) (tableRef table alias_)).1
        (some (seedInStore (tableStore table) (tableRef table alias_)).2)
      = seedTags table alias_ := by
  rw [seedInStore_eq _ _ (fun a h => tableRef_lt table alias_ a h)]
  show List.getD (tableStore table
      ++ [mapsCopy [] (Store.read (tableStore table) (tableRef table alias_))])
    (tableStore table).length [] = _
  rw [getD_append_length, read_tableStore]
  rfl

/-- The content of `resourceTags` at the call of `emitIssue` for a resource whose `tags`
attribute resolves to a mapping. -/
theorem read_mergeInStore (table : List (String × TagMap)) (alias_ : String)
    (evaluatedTags : TagMap) :
    Store.read (mergeInStore (tableStore table) (tableRef table alias_) evaluatedTags).1
        (some (mergeInStore (tableStore table) (tableRef table alias_) evaluatedTags).2)
      = mapsCopy (seedTags table alias_) evaluatedTags := by
  rw [mergeInStore_eq _ _ _ (fun a h => tableRef_lt table alias_ a h)]
  show List.getD (tableStore table
      ++ [mapsCopy (mapsCopy [] (Store.read (tableStore table) (tableRef table alias_)))
        evaluatedTags, evaluatedTags])
    (tableStore table).length [] = _
  rw [getD_append_length, read_tableStore]
  rfl

/-! ## The generic taggable resources -/

theorem checkResource_of_alias (config : awsResourceTagsRuleConfig)
    (table : List (String × TagMap)) (resource : ResourceBlock) (alias_ : String)
    (halias : providerAlias table resource = .ok alias_) :
    checkResource config table resource =
      match resource.tags with
      | some attr =>
        match attr.eval with
        | .error e => ⟨[], some (.error e)⟩
        | .skipped => ⟨[], none⟩
        | .value .unknown => ⟨[], none⟩
        | .value .null => ⟨[], none⟩
        | .value .notMap => ⟨[], some (.panic "value is not a collection")⟩
        | .value (.map valMap) =>
          match tagsOfValueMap valMap with
          | .error f => ⟨[], some f⟩
          | .ok evaluatedTags =>
            ⟨emitIssue (mapsCopy (seedTags table alias_) evaluatedTags) config attr.ExprRange,
              none⟩
      | none => ⟨emitIssue (seedTags table alias_) config resource.DefRange, none⟩ := by
  unfold checkResource checkResourceCall
  rw [halias]
  cases htags : resource.tags with
  | none => simp only [read_seedInStore]
  | some attr =>
    simp only []
    cases heval : attr.eval with
    | error e => rfl
    | skipped => rfl
    | value val =>
      cases val with
      | unknown => rfl
      | null => rfl
      | notMap => rfl
      | map valMap =>
        simp only []
        cases hconv : tagsOfValueMap valMap with
        | error f => rfl
        | ok evaluatedTags => simp only [read_mergeInStore]

theorem checkResource_of_alias_error (config : awsResourceTagsRuleConfig)
    (table : List (String × TagMap)) (resource : ResourceBlock) (f : Failure)
    (halias : providerAlias table resource = .error f) :
    checkResource config table resource = ⟨[], some f⟩ := by
  unfold checkResource checkResourceCall
  rw [halias]

/-- C1 (as amended): a generic taggable resource whose `tags` attribute evaluates to an
unknown or null value is skipped.  The body of the loop emits no issue for it, whatever the
provider defaults and the required tags; and when its provider alias resolves, the body does
not fail either, so that the loop over the resources goes on as if the resource were not in the
module. -/
theorem C1_unresolved_tags_are_skipped (config : awsResourceTagsRuleConfig)
    (table : List (String × TagMap)) (resource : ResourceBlock)
    (attr : Attribute (Eval CtyValue))
    (htags : resource.tags = some attr)
    (hval : attr.eval = .value .unknown ∨ attr.eval = .value .null) :
    (checkResource config table resource).issues = [] ∧
    (∀ alias_, providerAlias table resource = .ok alias_ →
      checkResource config table resource = ⟨[], none⟩ ∧
      ∀ pre post : List ResourceBlock,
        checkResources config table (pre ++ resource :: post)
          = checkResources config table (pre ++ post)) := by
  have hok : ∀ alias_, providerAlias table resource = .ok alias_ →
      checkResource config table resource = ⟨[], none⟩ := by
    intro alias_ halias
    rw [checkResource_of_alias config table resource alias_ halias, htags]
    rcases hval with h | h <;> simp [h]
  constructor
  · cases halias : providerAlias table resource with
    | error f => rw [checkResource_of_alias_error config table resource f halias]
    | ok alias_ => rw [hok alias_ halias]
  · intro alias_ halias
    refine ⟨hok alias_ halias, fun pre post => ?_⟩
    rw [checkResources_append, checkResources_append]
    congr 1
    funext _
    rw [checkResources, hok alias_ halias, andThen_nil]

/-- Witness of C1 (as amended): a bucket with an unresolvable `tags` expression, no provider
block and the required tag `Env`. -/
theorem C1_unresolved_tags_are_skipped_witness :
    (unknownTagsBucket.tags = some ⟨lineRange 2, .value .unknown⟩ ∧
      ((⟨lineRange 2, .value .unknown⟩ : Attribute (Eval CtyValue)).eval = .value .unknown ∨
        (⟨lineRange 2, .value .unknown⟩ : Attribute (Eval CtyValue)).eval = .value .null)) ∧
    ((checkResource ⟨["Env"], []⟩ [] unknownTagsBucket).issues = [] ∧
      (∀ alias_, providerAlias [] unknownTagsBucket = .ok alias_ →
        checkResource ⟨["Env"], []⟩ [] unknownTagsBucket = ⟨[], none⟩ ∧
        ∀ pre post : List ResourceBlock,
          checkResources ⟨["Env"], []⟩ [] (pre ++ unknownTagsBucket :: post)
            = checkResources ⟨["Env"], []⟩ [] (pre ++ post))) :=
  ⟨⟨rfl, Or.inl rfl⟩,
   C1_unresolved_tags_are_skipped ⟨["Env"], []⟩ [] unknownTagsBucket
     ⟨lineRange 2, .value .unknown⟩ rfl (Or.inl rfl)⟩

/-- Counterexample to C1 as stated: the scenario of the claim.  One bucket with an unresolvable
`tags` expression, no provider block, required tag `Env`: `Check` succeeds and emits no issue,
where the claim has one issue that reports `Env`, the one the evaluation against the provider
defaults at the definition range of the bucket would emit. -/
theorem C1_counterexample :
    Check ["aws_s3_bucket"] (bucketRunner ⟨["Env"], []⟩ [] [unknownTagsBucket]) = ⟨[], none⟩ ∧
    emitIssue (seedTags [] "default") ⟨["Env"], []⟩ unknownTagsBucket.DefRange =
      [⟨"The resource is missing the following tags: \"Env\".", lineRange 1⟩] := by
  decide

theorem checkResource_of_missing_alias (config : awsResourceTagsRuleConfig)
    (table : List (String × TagMap)) (resource : ResourceBlock)
    (val : Attribute DecodeResult) (provider : ProviderConfigRef)
    (hprovider : resource.provider = some val)
    (hdecoded : val.eval.provider = some provider)
    (hmissing : provider.Alias ∉ mapKeys table) :
    checkResource config table resource =
      ⟨[], some (.error
        ("The aws provider with alias \"" ++ provider.Alias ++ "\" doesn't exist."))⟩ := by
  apply checkResource_of_alias_error
  unfold providerAlias
  rw [hprovider]
  simp only [hdecoded]
  rw [if_pos ((mapHas_eq_false_iff table provider.Alias).mpr hmissing)]

/-- C5: when the provider tags resolve and a generic taggable resource of a type that is not
excluded has a `provider` attribute whose decoded alias is no key of the provider tag table,
`Check` does not succeed.  The body of the loop emits no issue for the resource and fails with
the error that names the alias; and when nothing before the resource fails (the resource types
before its type, and the resources of its type before it), that error is the one `Check`
returns, after the issues of what came before. -/
theorem C5_unknown_provider_alias_aborts (Resources : List String) (runner : Runner)
    (config : awsResourceTagsRuleConfig) (table : List (String × TagMap))
    (before after : List String) (resourceType : String)
    (pre post : List ResourceBlock) (resource : ResourceBlock)
    (val : Attribute DecodeResult) (provider : ProviderConfigRef)
    (hconfig : runner.DecodeRuleConfig = .ok config)
    (htable : getProviderLevelTags runner = .ok table)
    (hcatalog : Resources = before ++ resourceType :: after)
    (hexclude : resourceType ∉ config.Exclude)
    (hcontent : runner.GetResourceContent resourceType = .ok (pre ++ resource :: post))
    (hprovider : resource.provider = some val)
    (hdecoded : val.eval.provider = some provider)
    (hmissing : provider.Alias ∉ mapKeys table) :
    (Check Resources runner).failure ≠ none ∧
    checkResource config table resource =
      ⟨[], some (.error
        ("The aws provider with alias \"" ++ provider.Alias ++ "\" doesn't exist."))⟩ ∧
    ((checkResourceTypes runner config table before).failure = none →
      (checkResources config table pre).failure = none →
      Check Resources runner =
        ⟨(checkResourceTypes runner config table before).issues
            ++ (checkResources config table pre).issues,
          some (.error
            ("The aws provider with alias \"" ++ provider.Alias ++ "\" doesn't exist."))⟩) := by
  have hbody := checkResource_of_missing_alias config table resource val provider
    hprovider hdecoded hmissing
  have hCheck : Check Resources runner =
      (checkResourceTypes runner config table Resources).andThen
        fun _ => checkAwsAutoScalingGroups runner config := by
    unfold Check
    rw [hconfig]
    simp only [htable]
  refine ⟨?_, hbody, ?_⟩
  · rw [hCheck]
    apply andThen_failure_ne_none
    apply checkResourceTypes_failure_of_mem runner config table Resources resourceType
      (pre ++ resource :: post) (by rw [hcatalog]; simp) hexclude hcontent
    apply checkResources_failure_of_mem config table _ resource (by simp)
    rw [hbody]
    simp
  · intro hbefore hpre
    have hloop : checkResources config table (pre ++ resource :: post) =
        ⟨(checkResources config table pre).issues,
          some (.error
            ("The aws provider with alias \"" ++ provider.Alias ++ "\" doesn't exist."))⟩ := by
      rw [checkResources_append]
      rcases hp : checkResources config table pre with ⟨issues, failure⟩
      rw [hp] at hpre
      simp only at hpre
      subst hpre
      rw [checkResources, hbody]
      simp [Outcome.andThen]
    have hex : stringInSlice resourceType config.Exclude = false := by
      rw [← Bool.not_eq_true, stringInSlice_iff]
      exact hexclude
    have htypes : checkResourceTypes runner config table (resourceType :: after) =
        ⟨(checkResources config table pre).issues,
          some (.error
            ("The aws provider with alias \"" ++ provider.Alias ++ "\" doesn't exist."))⟩ := by
      rw [checkResourceTypes, hex]
      simp only [Bool.false_eq_true, if_false, hcontent, hloop]
      rfl
    rw [hCheck, hcatalog, checkResourceTypes_append]
    rcases hb : checkResourceTypes runner config table before with ⟨issues, failure⟩
    rw [hb] at hbefore
    simp only at hbefore
    subst hbefore
    rw [htypes]
    simp [Outcome.andThen]

/-- Witness of C5: the scenario of the spec.  A tagged bucket, then a bucket with
`provider = aws.missing`, where no provider block declares the alias `missing`; `Check` aborts
with the error naming the alias, after the issue of the first bucket. -/
theorem C5_unknown_provider_alias_aborts_witness :
    ((bucketRunner ⟨["Team"], []⟩ [] [taggedBucket, missingProviderBucket]).DecodeRuleConfig
        = .ok ⟨["Team"], []⟩ ∧
      getProviderLevelTags (bucketRunner ⟨["Team"], []⟩ [] [taggedBucket, missingProviderBucket])
        = .ok [] ∧
      "aws_s3_bucket" ∉ ([] : List String) ∧
      "missing" ∉ mapKeys ([] : List (String × TagMap))) ∧
    Check ["aws_instance", "aws_s3_bucket"]
        (bucketRunner ⟨["Team"], []⟩ [] [taggedBucket, missingProviderBucket])
      = ⟨[⟨"The resource is missing the following tags: \"Team\".", lineRange 6⟩],
          some (.error "The aws provider with alias \"missing\" doesn't exist.")⟩ :=
  ⟨⟨rfl, by decide, by decide, by decide⟩,
   ((C5_unknown_provider_alias_aborts ["aws_instance", "aws_s3_bucket"]
      (bucketRunner ⟨["Team"], []⟩ [] [taggedBucket, missingProviderBucket])
      ⟨["Team"], []⟩ [] ["aws_instance"] [] "aws_s3_bucket" [taggedBucket] []
      missingProviderBucket ⟨lineRange 4, ⟨some ⟨"aws", "missing"⟩, false, ""⟩⟩
      ⟨"aws", "missing"⟩ rfl (by decide) rfl (by decide) (by decide) rfl rfl
      (by decide)).2.2 (by decide) (by decide)).trans (by decide)⟩

/-! ## The autoscaling groups -/

/-- The first row of the decision table: two non-empty Tag Maps give the conflict issue and
nothing else. -/
theorem asgDecision_of_both (config : awsResourceTagsRuleConfig) (resource : AsgBlock)
    (blockTags attrTags : TagMap) (blockLocation attrLocation : Range)
    (hblock : blockTags ≠ []) (hattr : attrTags ≠ []) :
    asgDecision config resource blockTags blockLocation attrTags attrLocation =
      [⟨"Only tag block or tags attribute may be present, but found both",
        resource.DefRange⟩] := by
  unfold asgDecision
  rw [if_pos ⟨List.length_pos.mpr hblock, List.length_pos.mpr hattr⟩]

/-- C7, the code at the failing input: the groups `a` (one `tag` block of key `Env`), `b`
(neither form) and `c` (a `tags` attribute with the record of `Env`), required tag `Env`.
The Tag Map of the `tag` blocks computed for `b` has the key `Env` of `a`, and the Tag Map of
the `tags` attribute computed for `b` has the record of `c`; so `b` draws the conflict issue,
and with `a` alone beside it `b` draws no issue at all, where `b` on its own is reported as
missing `Env`. -/
theorem C7_tag_forms_are_not_resolved_per_group :
    checkAwsAutoScalingGroupsTag (asgRunner ⟨["Env"], []⟩ [groupA, groupB, groupC]) groupB
      = .ok ([("Env", "")], lineRange 10) ∧
    checkAwsAutoScalingGroupsTags (asgRunner ⟨["Env"], []⟩ [groupA, groupB, groupC]) groupB
      = .ok ([("Env", "prod")], lineRange 21) ∧
    checkAwsAutoScalingGroup (asgRunner ⟨["Env"], []⟩ [groupA, groupB, groupC])
        ⟨["Env"], []⟩ groupB
      = ⟨[⟨"Only tag block or tags attribute may be present, but found both", lineRange 10⟩],
          none⟩ ∧
    Check [] (asgRunner ⟨["Env"], []⟩ [groupA, groupB]) = ⟨[], none⟩ ∧
    Check [] (asgRunner ⟨["Env"], []⟩ [groupB])
      = ⟨[⟨"The resource is missing the following tags: \"Env\".", lineRange 10⟩], none⟩ := by
  decide

/-! ## Excluded resource types -/

theorem stringInSlice_eq_false_iff (a : String) (list : List String) :
    stringInSlice a list = false ↔ a ∉ list := by
  rw [← stringInSlice_iff]; simp

theorem checkResourceTypes_congr (runner runner' : Runner)
    (config : awsResourceTagsRuleConfig) (table : List (String × TagMap))
    (Resources : List String)
    (h : ∀ t, t ∉ config.Exclude → runner'.GetResourceContent t = runner.GetResourceContent t) :
    checkResourceTypes runner' config table Resources
      = checkResourceTypes runner config table Resources := by
  induction Resources with
  | nil => rfl
  | cons resourceType rest ih =>
    simp only [checkResourceTypes, ih]
    split_ifs with hex
    · rfl
    · rw [h resourceType (fun hmem => hex ((stringInSlice_iff _ _).mpr hmem))]

theorem checkAwsAutoScalingGroup_congr (runner runner' : Runner)
    (config : awsResourceTagsRuleConfig) (resource : AsgBlock)
    (h : runner'.GetAutoscalingGroupContent = runner.GetAutoscalingGroupContent) :
    checkAwsAutoScalingGroup runner' config resource
      = checkAwsAutoScalingGroup runner config resource := by
  simp only [checkAwsAutoScalingGroup, checkAwsAutoScalingGroupsTag,
    checkAwsAutoScalingGroupsTags, h]

theorem checkAwsAutoScalingGroupsLoop_congr (runner runner' : Runner)
    (config : awsResourceTagsRuleConfig) (resources : List AsgBlock)
    (h : runner'.GetAutoscalingGroupContent = runner.GetAutoscalingGroupContent) :
    checkAwsAutoScalingGroupsLoop runner' config resources
      = checkAwsAutoScalingGroupsLoop runner config resources := by
  induction resources with
  | nil => rfl
  | cons resource rest ih =>
    simp only [checkAwsAutoScalingGroupsLoop, ih,
      checkAwsAutoScalingGroup_congr runner runner' config resource h]

theorem checkAwsAutoScalingGroups_congr (runner runner' : Runner)
    (config : awsResourceTagsRuleConfig)
    (h : "aws_autoscaling_group" ∉ config.Exclude →
      runner'.GetAutoscalingGroupContent = runner.GetAutoscalingGroupContent) :
    checkAwsAutoScalingGroups runner' config = checkAwsAutoScalingGroups runner config := by
  unfold checkAwsAutoScalingGroups
  split_ifs with hex
  · rfl
  · have h' := h (fun hmem => hex ((stringInSlice_iff _ _).mpr hmem))
    rw [h']
    cases runner.GetAutoscalingGroupContent with
    | error e => rfl
    | ok resources => exact checkAwsAutoScalingGroupsLoop_congr runner runner' config resources h'

/-- C8: the instances of an excluded resource type are not evaluated.  The step of `Check` for
an excluded generic type, and the autoscaling-group flow when `aws_autoscaling_group` is
excluded, emit nothing and do not fail, whatever the module holds for the type; and the outcome
of `Check`, issues and failure, is the same for two modules that differ only in the resources
of excluded types, so it is the outcome for the module without those resources. -/
theorem C8_excluded_types_are_not_evaluated (Resources : List String)
    (runner runner' : Runner) (config : awsResourceTagsRuleConfig)
    (hconfig : runner.DecodeRuleConfig = .ok config)
    (hconfig' : runner'.DecodeRuleConfig = .ok config)
    (hproviders : runner'.GetProviderContent = runner.GetProviderContent)
    (hgeneric : ∀ t, t ∉ config.Exclude →
      runner'.GetResourceContent t = runner.GetResourceContent t)
    (hgroups : "aws_autoscaling_group" ∉ config.Exclude →
      runner'.GetAutoscalingGroupContent = runner.GetAutoscalingGroupContent) :
    (∀ t ∈ config.Exclude, ∀ table : List (String × TagMap),
      checkResourceTypes runner config table [t] = ⟨[], none⟩) ∧
    ("aws_autoscaling_group" ∈ config.Exclude →
      checkAwsAutoScalingGroups runner config = ⟨[], none⟩) ∧
    Check Resources runner' = Check Resources runner := by
  refine ⟨?_, ?_, ?_⟩
  · intro t ht table
    simp [checkResourceTypes, (stringInSlice_iff t config.Exclude).mpr ht]
  · intro h
    simp [checkAwsAutoScalingGroups, (stringInSlice_iff _ config.Exclude).mpr h]
  · unfold Check
    rw [hconfig, hconfig']
    simp only [getProviderLevelTags, hproviders]
    cases runner.GetProviderContent with
    | error e => rfl
    | ok providerBody =>
      simp only []
      cases providerBlocks providerBody [] "" with
      | error f => rfl
      | ok table =>
        simp only [checkResourceTypes_congr runner runner' config table Resources hgeneric,
          checkAwsAutoScalingGroups_congr runner runner' config hgroups]

/-- Witness of C8: `aws_s3_bucket` and `aws_autoscaling_group` are excluded; the module holds a
bucket that selects a provider that does not exist and a bucket without the required tag, and
an autoscaling group without the required tag.  `Check` emits nothing and succeeds, as it does
on the module without them. -/
theorem C8_excluded_types_are_not_evaluated_witness :
    Check ["aws_s3_bucket", "aws_autoscaling_group"] (excludingRunner [] [])
      = Check ["aws_s3_bucket", "aws_autoscaling_group"]
          (excludingRunner [missingProviderBucket, taggedBucket] [groupB]) ∧
    Check ["aws_s3_bucket", "aws_autoscaling_group"]
        (excludingRunner [missingProviderBucket, taggedBucket] [groupB]) = ⟨[], none⟩ :=
  ⟨(C8_excluded_types_are_not_evaluated ["aws_s3_bucket", "aws_autoscaling_group"]
      (excludingRunner [missingProviderBucket, taggedBucket] [groupB]) (excludingRunner [] [])
      ⟨["Env"], ["aws_s3_bucket", "aws_autoscaling_group"]⟩ rfl rfl rfl
      (fun t ht => by
        have hne : t ≠ "aws_s3_bucket" := fun h => ht (by simp [h])
        simp [excludingRunner, hne])
      (fun h => absurd (by decide) h)).2.2,
   by decide⟩

/-! ## The provider tag table -/

theorem defaultTagsBlocks_keys (providerAlias : String) (blocks : List DefaultTagsBlock)
    (all all' : List (String × TagMap))
    (h : defaultTagsBlocks providerAlias blocks all = .ok all') :
    (∀ k, k ∈ mapKeys all → k ∈ mapKeys all') ∧
    ((∃ block ∈ blocks, block.tags ≠ none) → providerAlias ∈ mapKeys all') := by
  induction blocks generalizing all with
  | nil =>
    simp only [defaultTagsBlocks, Except.ok.injEq] at h
    subst h
    exact ⟨fun _ hk => hk, fun ⟨_, hb, _⟩ => by simp at hb⟩
  | cons block rest ih =>
    simp only [defaultTagsBlocks] at h
    cases htags : block.tags with
    | none =>
      rw [htags] at h
      obtain ⟨hmono, hreg⟩ := ih all h
      refine ⟨hmono, ?_⟩
      rintro ⟨b, hb, hne⟩
      rcases List.mem_cons.mp hb with e | hmem
      · subst e; exact absurd htags hne
      · exact hreg ⟨b, hmem, hne⟩
    | some attr =>
      simp only [htags] at h
      have hset : ∀ (providerTags : TagMap),
          defaultTagsBlocks providerAlias rest (mapSet all providerAlias providerTags)
            = .ok all' →
          (∀ k, k ∈ mapKeys all → k ∈ mapKeys all') ∧ providerAlias ∈ mapKeys all' := by
        intro providerTags hrest
        obtain ⟨hmono, _⟩ := ih _ hrest
        exact ⟨fun k hk => hmono k (by simp [mapKeys, mapSet] at hk ⊢; exact Or.inr hk),
          hmono providerAlias (by simp [mapKeys, mapSet])⟩
      cases heval : attr.eval with
      | error e => simp [heval] at h
      | skipped =>
        simp only [heval] at h
        exact ⟨(hset [] h).1, fun _ => (hset [] h).2⟩
      | value val =>
        simp only [heval] at h
        cases hval : providerTagsOfValue val with
        | error f => simp [hval] at h
        | ok providerTags =>
          rw [hval] at h
          exact ⟨(hset providerTags h).1, fun _ => (hset providerTags h).2⟩

theorem providerBlocks_keys (blocks : List ProviderBlock) (all table : List (String × TagMap))
    (providerAlias : String) (h : providerBlocks blocks all providerAlias = .ok table) :
    (∀ k, k ∈ mapKeys all → k ∈ mapKeys table) ∧
    (∀ provider ∈ blocks,
      (∀ attr aliasName, provider.aliasAttr = some attr → attr.eval = .value aliasName →
        aliasName ∈ mapKeys table) ∧
      (provider.aliasAttr = none → (∃ block ∈ provider.Blocks, block.tags ≠ none) →
        "default" ∈ mapKeys table)) := by
  induction blocks generalizing all providerAlias with
  | nil =>
    simp only [providerBlocks, Except.ok.injEq] at h
    subst h
    exact ⟨fun _ hk => hk, fun _ hp => by simp at hp⟩
  | cons provider rest ih =>
    simp only [providerBlocks] at h
    cases halias : provider.aliasAttr with
    | none =>
      rw [halias] at h
      simp only at h
      cases hinner : defaultTagsBlocks "default" provider.Blocks all with
      | error f => simp [hinner] at h
      | ok all1 =>
        rw [hinner] at h
        obtain ⟨hmono1, hreg1⟩ := defaultTagsBlocks_keys _ _ _ _ hinner
        obtain ⟨hmono, hregs⟩ := ih all1 "default" h
        refine ⟨fun k hk => hmono k (hmono1 k hk), ?_⟩
        intro p hp
        rcases List.mem_cons.mp hp with e | hmem
        · subst e
          refine ⟨fun attr _ ha _ => ?_, fun _ hblocks => hmono _ (hreg1 hblocks)⟩
          rw [halias] at ha
          cases ha
        · exact hregs p hmem
    | some providerAttr =>
      rw [halias] at h
      simp only at h
      cases heval : providerAttr.eval with
      | error e => simp [heval] at h
      | skipped =>
        rw [heval] at h
        simp only at h
        cases hinner : defaultTagsBlocks providerAlias provider.Blocks all with
        | error f => simp [hinner] at h
        | ok all1 =>
          rw [hinner] at h
          obtain ⟨hmono1, _⟩ := defaultTagsBlocks_keys _ _ _ _ hinner
          obtain ⟨hmono, hregs⟩ := ih all1 providerAlias h
          refine ⟨fun k hk => hmono k (hmono1 k hk), ?_⟩
          intro p hp
          rcases List.mem_cons.mp hp with e | hmem
          · subst e
            refine ⟨fun attr aliasName ha hv => ?_, fun hnone => ?_⟩
            · rw [halias] at ha
              cases ha
              rw [heval] at hv
              cases hv
            · rw [halias] at hnone
              cases hnone
          · exact hregs p hmem
      | value aliasName =>
        rw [heval] at h
        simp only at h
        cases hinner : defaultTagsBlocks aliasName provider.Blocks
            (mapSet all aliasName []) with
        | error f => simp [hinner] at h
        | ok all1 =>
          rw [hinner] at h
          obtain ⟨hmono1, _⟩ := defaultTagsBlocks_keys _ _ _ _ hinner
          obtain ⟨hmono, hregs⟩ := ih all1 aliasName h
          have hin : aliasName ∈ mapKeys table :=
            hmono _ (hmono1 _ (by simp [mapKeys, mapSet]))
          refine ⟨fun k hk =>
            hmono k (hmono1 k (by simp [mapKeys, mapSet] at hk ⊢; exact Or.inr hk)), ?_⟩
          intro p hp
          rcases List.mem_cons.mp hp with e | hmem
          · subst e
            refine ⟨fun attr name ha hv => ?_, fun hnone => ?_⟩
            · rw [halias] at ha
              cases ha
              rw [heval] at hv
              cases hv
              exact hin
            · rw [halias] at hnone
              cases hnone
          · exact hregs p hmem

theorem providerBlocks_of_plain (blocks : List ProviderBlock) (all : List (String × TagMap))
    (providerAlias : String)
    (h : ∀ provider ∈ blocks,
      provider.aliasAttr = none ∧ ∀ block ∈ provider.Blocks, block.tags = none) :
    providerBlocks blocks all providerAlias = .ok all := by
  have hinner : ∀ (blocks : List DefaultTagsBlock), (∀ block ∈ blocks, block.tags = none) →
      defaultTagsBlocks "default" blocks all = .ok all := by
    intro bs hbs
    induction bs with
    | nil => rfl
    | cons b rest ih =>
      simp only [defaultTagsBlocks, hbs b (by simp)]
      exact ih (fun b' hb' => hbs b' (List.mem_cons_of_mem _ hb'))
  induction blocks generalizing providerAlias with
  | nil => rfl
  | cons provider rest ih =>
    obtain ⟨hnone, hblocks⟩ := h provider (by simp)
    simp only [providerBlocks, hnone, hinner provider.Blocks hblocks]
    exact ih "default" (fun p hp => h p (List.mem_cons_of_mem _ hp))

/-- C9 (as amended): when `getProviderLevelTags` succeeds, the alias of every provider block
whose `alias` attribute evaluates to a string is a key of the returned table, also when the
block declares no default tags at all.  For a block without an `alias` attribute, the literal
`default` is a key of the table when the block has a nested block with a `tags` attribute; the
block itself does not register it: when no provider block has an `alias` attribute or a nested
block with a `tags` attribute, the table is empty. -/
theorem C9_registered_aliases (runner : Runner) (providerBody : List ProviderBlock)
    (table : List (String × TagMap))
    (hcontent : runner.GetProviderContent = .ok providerBody)
    (hok : getProviderLevelTags runner = .ok table) :
    (∀ provider ∈ providerBody,
      (∀ attr aliasName, provider.aliasAttr = some attr → attr.eval = .value aliasName →
        aliasName ∈ mapKeys table) ∧
      (provider.aliasAttr = none → (∃ block ∈ provider.Blocks, block.tags ≠ none) →
        "default" ∈ mapKeys table)) ∧
    ((∀ provider ∈ providerBody,
        provider.aliasAttr = none ∧ ∀ block ∈ provider.Blocks, block.tags = none) →
      table = []) := by
  simp only [getProviderLevelTags, hcontent] at hok
  refine ⟨(providerBlocks_keys providerBody [] table "" hok).2, fun hplain => ?_⟩
  rw [providerBlocks_of_plain providerBody [] "" hplain] at hok
  cases hok
  rfl

/-- Witness of C9 (as amended): the provider blocks `prod` (with default tags), `west` (without)
and one without alias that has default tags; the three aliases are keys of the table. -/
theorem C9_registered_aliases_witness :
    getProviderLevelTags
        (bucketRunner ⟨["Env"], []⟩ [prodProvider, westProvider, defaultProvider] [])
      = .ok [("default", [("Team", "core"), ("Team", "")]), ("west", []),
          ("prod", [("Env", "prod"), ("Env", "")]), ("prod", [])] ∧
    "west" ∈ mapKeys [("default", [("Team", "core"), ("Team", "")]), ("west", ([] : TagMap)),
          ("prod", [("Env", "prod"), ("Env", "")]), ("prod", [])] ∧
    "default" ∈ mapKeys [("default", [("Team", "core"), ("Team", "")]), ("west", ([] : TagMap)),
          ("prod", [("Env", "prod"), ("Env", "")]), ("prod", [])] :=
  have hok : getProviderLevelTags
        (bucketRunner ⟨["Env"], []⟩ [prodProvider, westProvider, defaultProvider] [])
      = .ok [("default", [("Team", "core"), ("Team", "")]), ("west", []),
          ("prod", [("Env", "prod"), ("Env", "")]), ("prod", [])] := by decide
  have h := C9_registered_aliases
    (bucketRunner ⟨["Env"], []⟩ [prodProvider, westProvider, defaultProvider] [])
    [prodProvider, westProvider, defaultProvider] _ rfl hok
  ⟨hok,
   (h.1 westProvider (by simp)).1 ⟨lineRange 3, .value "west"⟩ "west" rfl rfl,
   (h.1 defaultProvider (by simp)).2 rfl
     ⟨⟨some ⟨lineRange 4, .value (.map [("Team", .string "core")])⟩⟩,
       by simp [defaultProvider], by simp⟩⟩

/-- Counterexample to C9 as stated: one provider block with neither an `alias` attribute nor
default tags.  `getProviderLevelTags` succeeds with the empty table, of which the alias
`default` of the block is no key. -/
theorem C9_counterexample :
    plainProvider.aliasAttr = none ∧
    getProviderLevelTags (bucketRunner ⟨["Env"], []⟩ [plainProvider] []) = .ok [] ∧
    "default" ∉ mapKeys ([] : List (String × TagMap)) := by
  decide

/-! ## The provider of a generic resource -/

theorem mapGet_eq_of_values {β : Type} (m : List (String × β)) (k : String) (v : β)
    (hmem : k ∈ mapKeys m) (hvalues : ∀ kv ∈ m, kv.2 = v) : mapGet m k = some v := by
  induction m with
  | nil => simp [mapKeys] at hmem
  | cons kv rest ih =>
    obtain ⟨k', v'⟩ := kv
    by_cases hk : k' = k
    · have hv : v' = v := hvalues (k', v') (by simp)
      simp [mapGet, hk, hv]
    · have hmem' : k ∈ mapKeys rest := by
        simp only [mapKeys, List.map_cons, List.mem_cons] at hmem
        rcases hmem with h | h
        · exact absurd h.symm hk
        · exact h
      simpa [mapGet, hk] using ih hmem' (fun kv hkv => hvalues kv (List.mem_cons_of_mem _ hkv))

theorem tagBlockKeys_spec (resource : AsgBlock) (blocks : List TagBlock) (tags tags' : TagMap)
    (h : tagBlockKeys resource blocks tags = .ok tags') :
    (∀ k, k ∈ mapKeys tags → k ∈ mapKeys tags') ∧
    (∀ tag ∈ blocks, ∀ keyAttr k, tag.key = some keyAttr → keyAttr.eval = .value k →
      k ∈ mapKeys tags') ∧
    ((∀ kv ∈ tags, kv.2 = "") → ∀ kv ∈ tags', kv.2 = "") := by
  induction blocks generalizing tags with
  | nil =>
    simp only [tagBlockKeys, Except.ok.injEq] at h
    subst h
    exact ⟨fun _ hk => hk, fun _ ht => by simp at ht, id⟩
  | cons tag rest ih =>
    simp only [tagBlockKeys] at h
    cases hkey : tag.key with
    | none => simp [hkey] at h
    | some attr =>
      simp only [hkey] at h
      cases heval : attr.eval with
      | error e => simp [heval] at h
      | skipped =>
        simp only [heval] at h
        obtain ⟨hmono, hreg, hval⟩ := ih tags h
        refine ⟨hmono, ?_, hval⟩
        intro t ht keyAttr k hk hv
        rcases List.mem_cons.mp ht with e | hmem
        · subst e
          rw [hkey] at hk
          cases hk
          rw [heval] at hv
          cases hv
        · exact hreg t hmem keyAttr k hk hv
      | value key =>
        simp only [heval] at h
        obtain ⟨hmono, hreg, hval⟩ := ih (mapSet tags key "") h
        refine ⟨fun k hk => hmono k (by simp [mapKeys, mapSet] at hk ⊢; exact Or.inr hk),
          ?_, ?_⟩
        · intro t ht keyAttr k hk hv
          rcases List.mem_cons.mp ht with e | hmem
          · subst e
            rw [hkey] at hk
            cases hk
            rw [heval] at hv
            cases hv
            exact hmono _ (by simp [mapKeys, mapSet])
          · exact hreg t hmem keyAttr k hk hv
        · intro hall
          apply hval
          intro kv hkv
          simp only [mapSet, List.mem_cons] at hkv
          rcases hkv with e | hmem
          · subst e; rfl
          · exact hall kv hmem

theorem tagBlocksOfResources_spec (resourceBlock : AsgBlock) (resources : List AsgBlock)
    (tags tags' : TagMap) (h : tagBlocksOfResources resourceBlock resources tags = .ok tags') :
    (∀ k, k ∈ mapKeys tags → k ∈ mapKeys tags') ∧
    (∀ resource ∈ resources, resource.Labels.1 = resourceBlock.Labels.1 →
      ∀ tag ∈ resource.Blocks, ∀ keyAttr k, tag.key = some keyAttr →
        keyAttr.eval = .value k → k ∈ mapKeys tags') ∧
    ((∀ kv ∈ tags, kv.2 = "") → ∀ kv ∈ tags', kv.2 = "") := by
  induction resources generalizing tags with
  | nil =>
    simp only [tagBlocksOfResources, Except.ok.injEq] at h
    subst h
    exact ⟨fun _ hk => hk, fun _ hr => by simp at hr, id⟩
  | cons resource rest ih =>
    simp only [tagBlocksOfResources] at h
    by_cases hlabel : resource.Labels.1 = resourceBlock.Labels.1
    · simp only [hlabel, ne_eq, not_true_eq_false, if_false] at h
      cases hinner : tagBlockKeys resource resource.Blocks tags with
      | error f => simp [hinner] at h
      | ok tags1 =>
        simp only [hinner] at h
        obtain ⟨hmono1, hreg1, hval1⟩ := tagBlockKeys_spec resource resource.Blocks tags tags1 hinner
        obtain ⟨hmono, hreg, hval⟩ := ih tags1 h
        refine ⟨fun k hk => hmono k (hmono1 k hk), ?_, fun hall => hval (hval1 hall)⟩
        intro r hr hl tag htag keyAttr k hk hv
        rcases List.mem_cons.mp hr with e | hmem
        · subst e
          exact hmono k (hreg1 tag htag keyAttr k hk hv)
        · exact hreg r hmem hl tag htag keyAttr k hk hv
    · simp only [ne_eq, hlabel, not_false_eq_true, if_true] at h
      obtain ⟨hmono, hreg, hval⟩ := ih tags h
      refine ⟨hmono, ?_, hval⟩
      intro r hr hl tag htag keyAttr k hk hv
      rcases List.mem_cons.mp hr with e | hmem
      · subst e
        exact absurd hl hlabel
      · exact hreg r hmem hl tag htag keyAttr k hk hv

/-- The key of a `tag` block of an instance is a key of the Tag Map of the `tag` blocks computed
for the instance, with the empty string as value. -/
theorem blockTags_of_key (runner : Runner) (resource : AsgBlock) (resources : List AsgBlock)
    (tag : TagBlock) (keyAttr : Attribute (Eval String)) (k : String)
    (blockTags : TagMap) (blockLocation : Range)
    (hcontent : runner.GetAutoscalingGroupContent = .ok resources)
    (hmem : resource ∈ resources) (htag : tag ∈ resource.Blocks)
    (hkey : tag.key = some keyAttr) (hval : keyAttr.eval = .value k)
    (hblock : checkAwsAutoScalingGroupsTag runner resource = .ok (blockTags, blockLocation)) :
    k ∈ mapKeys blockTags ∧ mapGet blockTags k = some "" ∧
      blockLocation = resource.DefRange := by
  simp only [checkAwsAutoScalingGroupsTag, hcontent] at hblock
  cases hloop : tagBlocksOfResources resource resources [] with
  | error f => simp [hloop] at hblock
  | ok tags =>
    simp only [hloop, Except.ok.injEq, Prod.mk.injEq] at hblock
    obtain ⟨h1, h2⟩ := hblock
    subst h1
    obtain ⟨_, hreg, hvalues⟩ := tagBlocksOfResources_spec resource resources [] tags hloop
    have hk : k ∈ mapKeys tags := hreg resource hmem rfl tag htag keyAttr k hkey hval
    exact ⟨hk, mapGet_eq_of_values tags k "" hk (hvalues (fun _ h => by simp at h)), h2.symm⟩

/-- C11: for every `aws_autoscaling_group` instance that has a `tag` block whose `key`
evaluates to the string `k`, the Tag Map of the `tag` blocks computed for the instance maps `k`
to the empty string, and every issue the flow emits for the instance is either the conflict
issue or a missing-tag issue whose message lists keys among which `k` is not: the block
satisfies the required tag `k` although it states no value. -/
theorem C11_tag_block_key_counts_as_present (runner : Runner)
    (config : awsResourceTagsRuleConfig) (resources : List AsgBlock) (resource : AsgBlock)
    (tag : TagBlock) (keyAttr : Attribute (Eval String)) (k : String)
    (hcontent : runner.GetAutoscalingGroupContent = .ok resources)
    (hmem : resource ∈ resources) (htag : tag ∈ resource.Blocks)
    (hkey : tag.key = some keyAttr) (hval : keyAttr.eval = .value k) :
    (∀ blockTags blockLocation,
      checkAwsAutoScalingGroupsTag runner resource = .ok (blockTags, blockLocation) →
      mapGet blockTags k = some "") ∧
    (∀ issue ∈ (checkAwsAutoScalingGroup runner config resource).issues,
      issue = ⟨"Only tag block or tags attribute may be present, but found both",
        resource.DefRange⟩ ∨
      ∃ keys : List String, k ∉ keys ∧ (∀ key ∈ keys, key ∈ config.Tags) ∧
        issue = ⟨"The resource is missing the following tags: "
          ++ ", ".intercalate (keys.map (fun key => "\"" ++ key ++ "\"")) ++ ".",
          resource.DefRange⟩) := by
  refine ⟨fun blockTags blockLocation hblock =>
    (blockTags_of_key runner resource resources tag keyAttr k blockTags blockLocation
      hcontent hmem htag hkey hval hblock).2.1, ?_⟩
  intro issue hissue
  unfold checkAwsAutoScalingGroup at hissue
  cases hblock : checkAwsAutoScalingGroupsTag runner resource with
  | error f => simp [hblock] at hissue
  | ok blockResult =>
    obtain ⟨blockTags, blockLocation⟩ := blockResult
    obtain ⟨hk, _, hloc⟩ := blockTags_of_key runner resource resources tag keyAttr k blockTags
      blockLocation hcontent hmem htag hkey hval hblock
    have hne : blockTags ≠ [] := by
      intro he
      rw [he] at hk
      simp [mapKeys] at hk
    simp only [hblock] at hissue
    cases hattr : checkAwsAutoScalingGroupsTags runner resource with
    | error f => simp [hattr] at hissue
    | ok attrResult =>
      obtain ⟨attrTags, attrLocation⟩ := attrResult
      simp only [hattr] at hissue
      by_cases hattrNil : attrTags = []
      · right
        subst hattrNil
        have hpos : 0 < blockTags.length := List.length_pos.mpr hne
        have hdecision : asgDecision config resource blockTags blockLocation [] attrLocation
            = emitIssue blockTags config blockLocation := by
          unfold asgDecision
          simp [hpos, Nat.ne_of_gt hpos]
        rw [hdecision, hloc] at hissue
        by_cases habsent : absentTags blockTags config.Tags = []
        · rw [emitIssue_eq, if_pos habsent] at hissue
          simp at hissue
        · obtain ⟨keys, hperm, _, hemit, _⟩ :=
            emitIssue_of_absent blockTags config resource.DefRange habsent
          rw [hemit] at hissue
          refine ⟨keys, ?_, ?_, by simpa using hissue⟩
          · intro hin
            have := (hperm.mem_iff.mp hin)
            simp only [List.mem_filter, decide_eq_true_eq] at this
            exact this.2 hk
          · intro key hin
            have := (hperm.mem_iff.mp hin)
            simp only [List.mem_filter, decide_eq_true_eq] at this
            exact this.1
      · left
        rw [asgDecision_of_both config resource _ _ _ _ hne hattrNil] at hissue
        simpa using hissue

/-- Witness of C11: the example of the claim.  One group with the block `tag { key = "Env" }`,
required tags `Env` and `Owner`: the one issue lists `Owner` and not `Env`; with the required
tag `Env` alone `Check` emits nothing. -/
theorem C11_tag_block_key_counts_as_present_witness :
    ((asgRunner ⟨["Env", "Owner"], []⟩ [envKeyGroup]).GetAutoscalingGroupContent
        = .ok [envKeyGroup] ∧
      envKeyGroup ∈ [envKeyGroup] ∧
      (⟨some ⟨lineRange 2, .value "Env"⟩⟩ : TagBlock) ∈ envKeyGroup.Blocks) ∧
    (∀ blockTags blockLocation,
      checkAwsAutoScalingGroupsTag (asgRunner ⟨["Env", "Owner"], []⟩ [envKeyGroup]) envKeyGroup
        = .ok (blockTags, blockLocation) →
      mapGet blockTags "Env" = some "") ∧
    Check [] (asgRunner ⟨["Env", "Owner"], []⟩ [envKeyGroup])
      = ⟨[⟨"The resource is missing the following tags: \"Owner\".", lineRange 1⟩], none⟩ ∧
    Check [] (asgRunner ⟨["Env"], []⟩ [envKeyGroup]) = ⟨[], none⟩ :=
  ⟨⟨rfl, by simp, by simp [envKeyGroup]⟩,
   (C11_tag_block_key_counts_as_present (asgRunner ⟨["Env", "Owner"], []⟩ [envKeyGroup])
      ⟨["Env", "Owner"], []⟩ [envKeyGroup] envKeyGroup ⟨some ⟨lineRange 2, .value "Env"⟩⟩
      ⟨lineRange 2, .value "Env"⟩ "Env" rfl (by simp) (by simp [envKeyGroup]) rfl rfl).1,
   by decide, by decide⟩

/-! ## The order of the required tags -/

theorem absentTags_perm (tags : TagMap) (required1 required2 : List String)
    (h : required1.Perm required2) :
    (absentTags tags required1).Perm (absentTags tags required2) :=
  h.filter _

/-- C12: the output of `emitIssue` does not depend on the order in which the required tags are
declared.  For one Tag Map and one range, two rule configurations whose required tags are
rearrangements of each other give the same issues: none for both, or one issue with the same
message and range for both. -/
theorem C12_emitIssue_permutation_invariant (tags : TagMap)
    (config1 config2 : awsResourceTagsRuleConfig) (location : Range)
    (h : config1.Tags.Perm config2.Tags) :
    emitIssue tags config1 location = emitIssue tags config2 location := by
  have hperm := absentTags_perm tags config1.Tags config2.Tags h
  have hnil : absentTags tags config1.Tags = [] ↔ absentTags tags config2.Tags = [] := by
    constructor
    · intro h1
      rw [h1] at hperm
      exact List.nil_perm.mp hperm
    · intro h2
      rw [h2] at hperm
      exact List.perm_nil.mp hperm
  have hsort : sortStrings ((absentTags tags config1.Tags).map quoteTag)
      = sortStrings ((absentTags tags config2.Tags).map quoteTag) := by
    apply List.eq_of_perm_of_sorted _ (sortStrings_sorted _) (sortStrings_sorted _)
    exact (sortStrings_perm _).trans ((hperm.map quoteTag).trans (sortStrings_perm _).symm)
  rw [emitIssue_eq, emitIssue_eq, hsort]
  by_cases h1 : absentTags tags config1.Tags = []
  · rw [if_pos h1, if_pos (hnil.mp h1)]
  · rw [if_neg h1, if_neg (fun h2 => h1 (hnil.mpr h2))]

/-- Witness of C12: the required tags `Owner`, `Env`, `Team` and their rearrangement `Team`,
`Owner`, `Env` against the Tag Map with the one key `Env`. -/
theorem C12_emitIssue_permutation_invariant_witness :
    ["Owner", "Env", "Team"].Perm ["Team", "Owner", "Env"] ∧
    emitIssue [("Env", "prod")] ⟨["Owner", "Env", "Team"], []⟩ (lineRange 1)
      = emitIssue [("Env", "prod")] ⟨["Team", "Owner", "Env"], []⟩ (lineRange 1) ∧
    emitIssue [("Env", "prod")] ⟨["Team", "Owner", "Env"], []⟩ (lineRange 1)
      = [⟨"The resource is missing the following tags: \"Owner\", \"Team\".", lineRange 1⟩] :=
  ⟨by decide,
   C12_emitIssue_permutation_invariant [("Env", "prod")] ⟨["Owner", "Env", "Team"], []⟩
     ⟨["Team", "Owner", "Env"], []⟩ (lineRange 1) (by decide),
   by decide⟩

/-! ## The conversion of a resolved mapping -/

/-- C13, the code against the claim.  The conversion of lines 118-125 and 215-223 returns a Tag
Map exactly when no entry of the resolved mapping is a string that is not known; the Tag Map
then has the keys of the mapping, each with the string of a non-null string entry and the empty
string for a null or non-string entry.  On an entry that is a string and not known, a case the
loop does not test for, `AsString` panics: at the failing input, the mapping with the one such
entry `Name`, the conversion fails, and with it `getProviderLevelTags` and `Check`, which
emits no issue. -/
theorem C13_conversion_panics_on_unknown_entry :
    (∀ valMap : List (String × CtyElem),
      ((∃ tags, tagsOfValueMap valMap = .ok tags) ↔
        ∀ kv ∈ valMap, kv.2 ≠ .unknownString) ∧
      (∀ tags, tagsOfValueMap valMap = .ok tags →
        (∀ k, k ∈ mapKeys tags ↔ k ∈ mapKeys valMap) ∧
        (∀ k, mapGet tags k = (mapGet valMap k).map tagValueOf))) ∧
    tagsOfValueMap [("Name", .unknownString)] = .error (.panic "value is unknown") ∧
    getProviderLevelTags (bucketRunner ⟨["Name"], []⟩ [unknownEntryProvider] [])
      = .error (.panic "value is unknown") ∧
    Check ["aws_s3_bucket"] (bucketRunner ⟨["Name"], []⟩ [] [unknownEntryBucket])
      = ⟨[], some (.panic "value is unknown")⟩ := by
  refine ⟨fun valMap => ⟨tagsOfValueMap_ok_iff valMap, fun tags h =>
    ⟨tagsOfValueMap_keys valMap tags h, tagsOfValueMap_get valMap tags h⟩⟩, ?_, ?_, ?_⟩
  · decide
  · decide
  · decide

/-! ## The error for a `tag` block without `key` -/

/-- C14, the code at the failing input: the one autoscaling group is named `web` and defined at
line 7, and its `tag` block has no `key`.  The flow emits nothing and fails with an error whose
message has the line 7 and, between the quotes, the resource type (`Labels[0]`) again; the name
`web` does not occur in it. -/
theorem C14_missing_key_error_names_the_type :
    checkAwsAutoScalingGroups (asgRunner ⟨["Env"], []⟩ [keylessGroup]) ⟨["Env"], []⟩
      = ⟨[], some (.error ("Did not find expected field \"key\" in aws_autoscaling_group "
          ++ "\"aws_autoscaling_group\" starting at line 7"))⟩ ∧
    keylessGroup.Labels.2 = "web" ∧
    ¬ List.IsInfix "web".toList
      ("Did not find expected field \"key\" in aws_autoscaling_group "
          ++ "\"aws_autoscaling_group\" starting at line 7").toList := by
  refine ⟨by decide, rfl, fun h => ?_⟩
  exact absurd (h.subset (by decide : Char.ofNat 98 ∈ "web".toList)) (by decide)

/-! ## The alias under which default tags are stored -/

/-- C15, the code at the failing input: the provider `prod` with the default tag `Env`,
followed by a provider whose `alias` is unknown to the evaluator and whose default tags are
`Team = "core"`.  `getProviderLevelTags` succeeds, and the entry of `prod` is the Tag Map of
the second block: it has `Team` and no longer `Env`, so that a bucket of the provider `prod`
is reported as missing `Env`.  A provider with unknown alias that comes first is stored under
the empty alias. -/
theorem C15_unknown_alias_overwrites_previous_entry :
    getProviderLevelTags
        (bucketRunner ⟨["Env"], []⟩ [prodProvider, unknownAliasProvider] [untaggedProdBucket])
      = .ok [("prod", [("Team", "core"), ("Team", "")]),
          ("prod", [("Env", "prod"), ("Env", "")]), ("prod", [])] ∧
    mapIndex [("prod", [("Team", "core"), ("Team", "")]),
          ("prod", [("Env", "prod"), ("Env", "")]), ("prod", [])] "prod"
      = [("Team", "core"), ("Team", "")] ∧
    getProviderLevelTags (bucketRunner ⟨["Env"], []⟩ [prodProvider] [untaggedProdBucket])
      = .ok [("prod", [("Env", "prod"), ("Env", "")]), ("prod", [])] ∧
    Check ["aws_s3_bucket"]
        (bucketRunner ⟨["Env"], []⟩ [prodProvider, unknownAliasProvider] [untaggedProdBucket])
      = ⟨[⟨"The resource is missing the following tags: \"Env\".", lineRange 8⟩], none⟩ ∧
    Check ["aws_s3_bucket"]
        (bucketRunner ⟨["Env"], []⟩ [prodProvider] [untaggedProdBucket]) = ⟨[], none⟩ ∧
    getProviderLevelTags (bucketRunner ⟨["Env"], []⟩ [unknownAliasProvider] [])
      = .ok [("", [("Team", "core"), ("Team", "")])] := by
  decide

/-! ## A `provider` attribute that does not decode -/

/-- What the body of the loop does with a resource whose `provider` attribute does not decode:
the alias of the returned reference is read and looked up before the diagnostics are tested. -/
theorem checkResource_of_decode_error (config : awsResourceTagsRuleConfig)
    (table : List (String × TagMap)) (resource : ResourceBlock)
    (val : Attribute DecodeResult)
    (hprovider : resource.provider = some val) (herrors : val.eval.HasErrors = true) :
    (val.eval.provider = none →
      checkResource config table resource
        = ⟨[], some (.panic "invalid memory address or nil pointer dereference")⟩) ∧
    (∀ provider, val.eval.provider = some provider → provider.Alias ∉ mapKeys table →
      checkResource config table resource
        = ⟨[], some (.error
            ("The aws provider with alias \"" ++ provider.Alias ++ "\" doesn't exist."))⟩) ∧
    (∀ provider, val.eval.provider = some provider → provider.Alias ∈ mapKeys table →
      checkResource config table resource = ⟨[], some (.error val.eval.diagnostics)⟩) := by
  refine ⟨?_, ?_, ?_⟩
  · intro hnil
    apply checkResource_of_alias_error
    unfold providerAlias
    rw [hprovider]
    simp only [hnil]
  · intro provider hdecoded hmissing
    exact checkResource_of_missing_alias config table resource val provider hprovider hdecoded
      hmissing
  · intro provider hdecoded hkey
    apply checkResource_of_alias_error
    unfold providerAlias
    rw [hprovider]
    simp only [hdecoded]
    rw [if_neg (by rw [(mapHas_iff table provider.Alias).mpr hkey]; simp), herrors]
    simp

/-- C16, the code against the claim.  For a resource whose `provider` attribute does not decode
(the diagnostics have errors), the body of the loop reads the alias of the returned reference
and looks it up in the table before it tests the diagnostics: it panics when the reference is
nil, it fails with the alias-not-found error when the alias of the returned reference is no key
of the table, and it fails with the decode error only when that alias is a key.  At the failing
inputs, a bucket whose `provider` decodes with an error to a reference without alias, and a
bucket for which the decoding returns nil, beside the one provider `prod`, `Check` returns the
alias-not-found error for the empty alias in place of the decode error, respectively panics. -/
theorem C16_decode_result_is_used_before_its_error :
    (∀ (config : awsResourceTagsRuleConfig) (table : List (String × TagMap))
        (resource : ResourceBlock) (val : Attribute DecodeResult),
      resource.provider = some val → val.eval.HasErrors = true →
      (val.eval.provider = none →
        checkResource config table resource
          = ⟨[], some (.panic "invalid memory address or nil pointer dereference")⟩) ∧
      (∀ provider, val.eval.provider = some provider → provider.Alias ∉ mapKeys table →
        checkResource config table resource
          = ⟨[], some (.error
              ("The aws provider with alias \"" ++ provider.Alias ++ "\" doesn't exist."))⟩) ∧
      (∀ provider, val.eval.provider = some provider → provider.Alias ∈ mapKeys table →
        checkResource config table resource = ⟨[], some (.error val.eval.diagnostics)⟩)) ∧
    undecodedProviderBucket.provider
      = some ⟨lineRange 4, ⟨some ⟨"aws", ""⟩, true, "Invalid provider configuration reference"⟩⟩ ∧
    Check ["aws_s3_bucket"]
        (bucketRunner ⟨["Env"], []⟩ [prodProvider] [undecodedProviderBucket])
      = ⟨[], some (.error "The aws provider with alias \"\" doesn't exist.")⟩ ∧
    Check ["aws_s3_bucket"] (bucketRunner ⟨["Env"], []⟩ [prodProvider] [nilProviderBucket])
      = ⟨[], some (.panic "invalid memory address or nil pointer dereference")⟩ := by
  refine ⟨fun config table resource val hprovider herrors =>
    checkResource_of_decode_error config table resource val hprovider herrors, rfl, ?_, ?_⟩
  · decide
  · decide

end Rules

namespace Models

/-! ## `aws_macie2_classification_job_invalid_job_status` -/

end Models
